import Mathlib

/-!
# pgx pool statistics collector (`collector.go`)

A shallow embedding of `NewPgxCollector`, `Describe` and `Collect`, together with
the library functions they call, each transcribed from the library it belongs to:

* `prometheus.BuildFQName`, `prometheus.NewDesc`, `prometheus.NewConstMetric` and
  `prometheus.MustNewConstMetric` (client_golang, `prometheus/metric.go`,
  `desc.go` and `value.go`), with `model.IsValidMetricName`
  (`prometheus/common`, `model/metric.go`);
* `(*pgxpool.Pool).Stat` (pgx, `pgxpool/pool.go`);
* `time.Duration.Seconds`, `strings.Join`, `strings.HasPrefix` and
  `utf8.ValidString` (Go standard library).

Conventions.

* A Go string is a sequence of bytes (`GoString`).
* A `float64` is the rational number it denotes; every arithmetic step rounds to
  nearest, ties to even, with a 53 bit significand (`roundFloat64`).
* A pointer to a pool is `none` (nil) or `some` address into a heap of pools.
* A channel send appends to the list of emitted values; a panic stops the loop
  and keeps what was sent before it.
-/

namespace PgxCollector

/-! ## Go strings -/

/-- A Go `string`: an immutable sequence of bytes (each below 256). -/
abbrev GoString := List Nat

/-- The bytes of an ASCII string literal of the source. -/
def bytes (s : String) : GoString := s.toList.map Char.toNat

/-- Go `strings.Join(elems, sep)`. -/
def Join : List GoString → GoString → GoString
  | [], _ => []
  | [a], _ => a
  | a :: b :: rest, sep => a ++ sep ++ Join (b :: rest) sep

/-- Go `strings.HasPrefix(s, p)`. -/
def HasPrefix (s p : GoString) : Bool := p.isPrefixOf s

/-! ## Metric names: `prometheus.BuildFQName` and name validation -/

/-- Function `prometheus.BuildFQName`: joins the non-empty parts with `_`; an empty
`name` gives the empty string. -/
def BuildFQName (namespace_ subsystem name : GoString) : GoString :=
  if name = [] then []
  else if namespace_ ≠ [] ∧ subsystem ≠ [] then
    Join [namespace_, subsystem, name] (bytes "_")
  else if namespace_ ≠ [] then Join [namespace_, name] (bytes "_")
  else if subsystem ≠ [] then Join [subsystem, name] (bytes "_")
  else name

/-- The two values of `model.NameValidationScheme` (package
`github.com/prometheus/common/model`), the process-wide setting `NewDesc` reads.
Older releases of the library only know the legacy scheme. -/
inductive ValidationScheme where
  | LegacyValidation
  | UTF8Validation
  deriving DecidableEq, Repr

/-- Function `isValidLegacyRune(b, i)` of `model`: letters, `_`, `:` and, past the first
position, digits. A byte of 0x80 or more never decodes to an allowed rune. -/
def isValidLegacyRune (b : Nat) (i : Nat) : Bool :=
  (0x61 ≤ b && b ≤ 0x7A) || (0x41 ≤ b && b ≤ 0x5A) || b == 0x5F || b == 0x3A ||
    (0x30 ≤ b && b ≤ 0x39 && 0 < i)

/-- The loop of `model.IsValidLegacyMetricName` from position `i` on. -/
def legacyRunesFrom : Nat → GoString → Bool
  | _, [] => true
  | i, b :: rest => isValidLegacyRune b i && legacyRunesFrom (i + 1) rest

/-- Function `model.IsValidLegacyMetricName`: the name matches
`[a-zA-Z_:][a-zA-Z0-9_:]*`. -/
def IsValidLegacyMetricName (n : GoString) : Bool :=
  n ≠ [] && legacyRunesFrom 0 n

/-- The scan of `utf8.ValidString`: `pending` continuation bytes of the current rune are
still owed, and the next byte has to lie between `lo` and `hi`. The first byte of
a rune fixes how many bytes follow and the range of the second one (which rules
out overlong forms, surrogates and values above U+10FFFF); later ones range over
0x80 to 0xBF. -/
def validFrom : ℕ → ℕ → ℕ → GoString → Bool
  | 0, _, _, [] => true
  | _ + 1, _, _, [] => false
  | 0, _, _, b :: rest =>
    if b < 0x80 then validFrom 0 0 0 rest
    else if 0xC2 ≤ b ∧ b ≤ 0xDF then validFrom 1 0x80 0xBF rest
    else if b = 0xE0 then validFrom 2 0xA0 0xBF rest
    else if b = 0xED then validFrom 2 0x80 0x9F rest
    else if 0xE1 ≤ b ∧ b ≤ 0xEF then validFrom 2 0x80 0xBF rest
    else if b = 0xF0 then validFrom 3 0x90 0xBF rest
    else if b = 0xF4 then validFrom 3 0x80 0x8F rest
    else if 0xF1 ≤ b ∧ b ≤ 0xF3 then validFrom 3 0x80 0xBF rest
    else false
  | n + 1, lo, hi, b :: rest =>
    if lo ≤ b ∧ b ≤ hi then validFrom n 0x80 0xBF rest else false

/-- Go `utf8.ValidString`: the bytes are well-formed UTF-8. -/
def ValidString (s : GoString) : Bool := validFrom 0 0 0 s

/-- Function `model.IsValidMetricName` under the given scheme: the legacy pattern, or any
non-empty well-formed UTF-8 string. -/
def IsValidMetricName (scheme : ValidationScheme) (n : GoString) : Bool :=
  match scheme with
  | .LegacyValidation => IsValidLegacyMetricName n
  | .UTF8Validation => n ≠ [] && ValidString n

/-! ## `float64` arithmetic

A finite `float64` is represented by the rational number it denotes. Every value
computed here is an integer of at most 64 bits, a quotient of such an integer by
`1e9`, or a sum of two such values, so no operation overflows or reaches the
subnormal range, and rounding to a 53 bit significand is the whole of IEEE 754
round-to-nearest-even. -/

/-- Round to the nearest integer, a tie going to the even neighbour. -/
def roundHalfEven (q : ℚ) : ℤ :=
  let f := ⌊q⌋
  let r := q - f
  if r < 1 / 2 then f
  else if 1 / 2 < r then f + 1
  else if f % 2 = 0 then f else f + 1

/-- The spacing of `float64` values in the binade of `q`: `2 ^ (⌊log₂ |q|⌋ - 52)`. -/
def ulp (q : ℚ) : ℚ := 2 ^ (Int.log 2 |q| - 52)

/-- The `float64` nearest to the real number `q` (ties to even). -/
def roundFloat64 (q : ℚ) : ℚ :=
  if q = 0 then 0 else roundHalfEven (q / ulp q) * ulp q

/-- Go conversion `float64(n)` of an integer value. -/
def float64 (n : ℤ) : ℚ := roundFloat64 n

/-- Go `x + y` on `float64`. -/
def fadd (x y : ℚ) : ℚ := roundFloat64 (x + y)

/-- Go `x / y` on `float64`, for a divisor other than zero (the only divisor of the
program is the constant `1e9`). -/
def fdiv (x y : ℚ) : ℚ := roundFloat64 (x / y)

/-! ## `time.Duration` -/

/-- Constant `time.Second`, in nanoseconds. -/
def Second : ℤ := 1000000000

/-- Method `time.Duration.Seconds`:
`sec := d / Second; nsec := d % Second; return float64(sec) + float64(nsec)/1e9`,
with Go's integer division, which truncates toward zero. -/
def Seconds (d : ℤ) : ℚ :=
  let sec := Int.tdiv d Second
  let nsec := Int.tmod d Second
  fadd (float64 sec) (fdiv (float64 nsec) 1000000000)

/-! ## `pgxpool` -/

/-- A `pgxpool.Stat` snapshot, by the values its accessor methods return. -/
structure Stat where
  /-- An `int64`. -/
  AcquireCount : ℤ
  /-- A `time.Duration`: an `int64` count of nanoseconds. -/
  AcquireDuration : ℤ
  /-- An `int32`. -/
  AcquiredConns : ℤ
  /-- An `int64`. -/
  CanceledAcquireCount : ℤ
  /-- An `int32`. -/
  ConstructingConns : ℤ
  /-- An `int64`. -/
  EmptyAcquireCount : ℤ
  /-- An `int32`. -/
  IdleConns : ℤ
  /-- An `int32`. -/
  MaxConns : ℤ
  /-- An `int32`. -/
  TotalConns : ℤ
  deriving DecidableEq, Repr

/-- The value fits Go's `int64`. -/
def isInt64 (x : ℤ) : Prop := -2 ^ 63 ≤ x ∧ x < 2 ^ 63

/-- The value fits Go's `int32`. -/
def isInt32 (x : ℤ) : Prop := -2 ^ 31 ≤ x ∧ x < 2 ^ 31

instance (x : ℤ) : Decidable (isInt64 x) :=
  inferInstanceAs (Decidable (-2 ^ 63 ≤ x ∧ x < 2 ^ 63))

instance (x : ℤ) : Decidable (isInt32 x) :=
  inferInstanceAs (Decidable (-2 ^ 31 ≤ x ∧ x < 2 ^ 31))

/-- A live `pgxpool.Pool`, as far as the collector can observe it: the snapshot its
`n`-th `Stat` call returns, and how many `Stat` calls it has served. -/
structure Pool where
  snapshots : ℕ → Stat
  statCalls : ℕ

/-- Method `(*pgxpool.Pool).Stat` on a live pool: returns the next snapshot. -/
def Pool.Stat (p : Pool) : PgxCollector.Stat × Pool :=
  (p.snapshots p.statCalls, { p with statCalls := p.statCalls + 1 })

/-- The pools of the process by address; a `*pgxpool.Pool` is `none` (nil) or
`some` address. -/
abbrev Heap := ℕ → Pool

/-- What a Go panic carries in this program. -/
inductive Panic where
  /-- Method call through a nil `*pgxpool.Pool`. -/
  | nilPointerDereference
  /-- The descriptor was built with an invalid metric name. -/
  | invalidMetricName (fqName : GoString)
  /-- The descriptor was built with an invalid label name. -/
  | invalidLabelName (label : GoString)
  /-- The descriptor was built with a label name used twice. -/
  | duplicateLabelNames
  /-- Value `errInconsistentCardinality`: label values do not match the variable labels. -/
  | inconsistentCardinality
  /-- A label value is not valid UTF-8. -/
  | invalidLabelValue (value : GoString)
  /-- Function `populateMetric` met a value type it does not know. -/
  | unknownValueType (t : ℕ)
  deriving DecidableEq, Repr

/-! ## `prometheus`: descriptors and constant metrics -/

/-- Type `prometheus.ValueType`, an `int` enumeration starting at one. -/
abbrev ValueType := ℕ

/-- Constant `prometheus.CounterValue`. -/
def CounterValue : ValueType := 1

/-- Constant `prometheus.GaugeValue`. -/
def GaugeValue : ValueType := 2

/-- Constant `prometheus.UntypedValue`. -/
def UntypedValue : ValueType := 3

/-- Type `prometheus.Desc`: the identity of a metric. The hashes `id` and `dimHash`, which
only the registry reads, are left out. -/
structure Desc where
  fqName : GoString
  help : GoString
  constLabels : List (GoString × GoString)
  variableLabels : List GoString
  err : Option Panic
  deriving DecidableEq, Repr

/-- Function `checkLabelName`: a valid label name that does not start with the reserved
`__`. -/
def checkLabelName (scheme : ValidationScheme) (l : GoString) : Bool :=
  (match scheme with
    | .LegacyValidation => l ≠ [] && legacyRunesFrom 0 l && !l.contains 0x3A
    | .UTF8Validation => l ≠ [] && ValidString l) && !HasPrefix l (bytes "__")

/-- Function `prometheus.NewDesc(fqName, help, variableLabels, constLabels)`. An invalid
name or label does not fail here: the error is stored in the descriptor. A nil
slice or map is the empty list. -/
def NewDesc (scheme : ValidationScheme) (fqName help : GoString)
    (variableLabels : List GoString) (constLabels : List (GoString × GoString)) : Desc :=
  let d : Desc := { fqName := fqName, help := help, constLabels := [],
                    variableLabels := variableLabels, err := none }
  if !IsValidMetricName scheme fqName then
    { d with err := some (.invalidMetricName fqName) }
  else
    match (constLabels.map Prod.fst ++ variableLabels).find?
        (fun l => !checkLabelName scheme l) with
    | some l => { d with err := some (.invalidLabelName l) }
    | none =>
      if (constLabels.map Prod.fst ++ variableLabels).Nodup then
        { d with constLabels := constLabels }
      else { d with err := some .duplicateLabelNames }

/-- Type `prometheus.Metric` as built by `NewConstMetric`: one sample. -/
structure Metric where
  desc : Desc
  valType : ValueType
  value : ℚ
  labelValues : List GoString
  deriving DecidableEq, Repr

/-- Function `validateLabelValues(vals, expectedNumberOfValues)`. -/
def validateLabelValues (vals : List GoString) (expected : ℕ) : Option Panic :=
  if vals.length ≠ expected then some .inconsistentCardinality
  else (vals.find? (fun v => !ValidString v)).map Panic.invalidLabelValue

/-- Function `prometheus.NewConstMetric`: returns the descriptor's error if it carries one
(`if desc.err != nil`), fails on label values that do not match the variable
labels, and, in releases that fill in the sample at once (`populateMetric`), on an
unknown value type. -/
def NewConstMetric (desc : Desc) (valueType : ValueType) (value : ℚ)
    (labelValues : List GoString) : Except Panic Metric :=
  match desc.err with
  | some e => .error e
  | none =>
    match validateLabelValues labelValues desc.variableLabels.length with
    | some e => .error e
    | none =>
      if valueType = CounterValue ∨ valueType = GaugeValue ∨ valueType = UntypedValue then
        .ok { desc := desc, valType := valueType, value := value,
              labelValues := labelValues }
      else .error (.unknownValueType valueType)

/-- Function `prometheus.MustNewConstMetric`: panics with the error `NewConstMetric`
returns. -/
def MustNewConstMetric (desc : Desc) (valueType : ValueType) (value : ℚ)
    (labelValues : List GoString) : Except Panic Metric :=
  NewConstMetric desc valueType value labelValues

/-! ## The collector (`collector.go`) -/

/-- Type `poolMetric`: a descriptor, the extractor closure and the value type. -/
structure poolMetric where
  desc : Desc
  fn : Stat → ℚ
  tp : ValueType

/-- Type `pgxStatsCollector`: the pool pointer and the catalogue. -/
structure pgxStatsCollector where
  conn : Option ℕ
  pms : List poolMetric

/-- Function `NewPgxCollector(ns, pgConn)`: stores the pointer as given and builds the nine
catalogue entries. `scheme` is the library's name validation setting at the time
of the call. -/
def NewPgxCollector (scheme : ValidationScheme) (ns : GoString) (pgConn : Option ℕ) :
    pgxStatsCollector :=
  { conn := pgConn
    pms := [
      { desc := NewDesc scheme
          (BuildFQName ns (bytes "pgx") (bytes "acquire_count"))
          (bytes "The cumulative count of successful acquires from the pool.")
          [] []
        fn := fun stats => float64 stats.AcquireCount
        tp := CounterValue },
      { desc := NewDesc scheme
          (BuildFQName ns (bytes "pgx") (bytes "acquire_duration"))
          (bytes "The total duration of all successful acquires from the pool.")
          [] []
        fn := fun stats => Seconds stats.AcquireDuration
        tp := CounterValue },
      { desc := NewDesc scheme
          (BuildFQName ns (bytes "pgx") (bytes "acquire_conns"))
          (bytes "The number of currently acquired connections in the pool.")
          [] []
        fn := fun stats => float64 stats.AcquiredConns
        tp := GaugeValue },
      { desc := NewDesc scheme
          (BuildFQName ns (bytes "pgx") (bytes "canceled_acquire_count"))
          (bytes ("The cumulative count of acquires from the pool that " ++
            "were canceled by a context."))
          [] []
        fn := fun stats => float64 stats.CanceledAcquireCount
        tp := CounterValue },
      { desc := NewDesc scheme
          (BuildFQName ns (bytes "pgx") (bytes "constructing_conns"))
          (bytes "The number of conns with construction in progress in the pool.")
          [] []
        fn := fun stats => float64 stats.ConstructingConns
        tp := GaugeValue },
      { desc := NewDesc scheme
          (BuildFQName ns (bytes "pgx") (bytes "empty_acquire_count"))
          (bytes ("The cumulative count of successful acquires from the " ++
            "pool that waited for a resource to be released or " ++
            "constructed because the pool was empty."))
          [] []
        fn := fun stats => float64 stats.EmptyAcquireCount
        tp := CounterValue },
      { desc := NewDesc scheme
          (BuildFQName ns (bytes "pgx") (bytes "idle_conns"))
          (bytes "The number of currently idle conns in the pool.")
          [] []
        fn := fun stats => float64 stats.IdleConns
        tp := GaugeValue },
      { desc := NewDesc scheme
          (BuildFQName ns (bytes "pgx") (bytes "max_conns"))
          (bytes "The maximum size of the pool.")
          [] []
        fn := fun stats => float64 stats.MaxConns
        tp := GaugeValue },
      { desc := NewDesc scheme
          (BuildFQName ns (bytes "pgx") (bytes "total_conns"))
          (bytes ("The total number of resources currently in the pool. " ++
            "The value is the sum of constructing_conns, " ++
            "acquired_conns, and idle_conns."))
          [] []
        fn := fun stats => float64 stats.TotalConns
        tp := GaugeValue } ] }

/-- Method `Describe`: sends the descriptor of every catalogue entry, in order. -/
def Describe (p : pgxStatsCollector) : List Desc :=
  p.pms.map (fun pm => pm.desc)

/-- The loop of `Collect` over the catalogue with the snapshot in hand: the samples sent
before the loop ended, and the panic that ended it, if any. -/
def collectLoop (stats : Stat) : List poolMetric → List Metric × Option Panic
  | [] => ([], none)
  | pm :: rest =>
    match MustNewConstMetric pm.desc pm.tp (pm.fn stats) [] with
    | .error e => ([], some e)
    | .ok m => ((m :: (collectLoop stats rest).1), (collectLoop stats rest).2)

/-- What one call of `Collect` leaves behind. -/
structure CollectResult where
  /-- The samples sent on the channel, in order. -/
  emitted : List Metric
  /-- The panic that ended the call, if any. -/
  panicked : Option Panic
  /-- The pools after the call. -/
  heap : Heap

/-- Method `Collect`: `stats := p.conn.Stat()`, then one `MustNewConstMetric` sample per
catalogue entry. A nil `conn` panics in `Stat` before anything is sent. -/
def Collect (p : pgxStatsCollector) (heap : Heap) : CollectResult :=
  match p.conn with
  | none => { emitted := [], panicked := some .nilPointerDereference, heap := heap }
  | some a =>
    let r := (heap a).Stat
    { emitted := (collectLoop r.1 p.pms).1
      panicked := (collectLoop r.1 p.pms).2
      heap := Function.update heap a r.2 }

/-- The namespaces `NewPgxCollector` turns into valid metric names: the empty one, and
those that are a valid metric name themselves. -/
def validNamespace (scheme : ValidationScheme) (ns : GoString) : Prop :=
  ns = [] ∨ IsValidMetricName scheme ns = true

instance (scheme : ValidationScheme) (ns : GoString) :
    Decidable (validNamespace scheme ns) :=
  inferInstanceAs (Decidable (ns = [] ∨ IsValidMetricName scheme ns = true))

/-- The name, kind and value of a sample. -/
def Metric.view (m : Metric) : GoString × ValueType × ℚ :=
  (m.desc.fqName, m.valType, m.value)

/-- The part of a fully qualified name in front of `pgx_`: nothing for the empty
namespace, the namespace and `_` otherwise. -/
def nsPart (ns : GoString) : GoString :=
  if ns = [] then [] else ns ++ bytes "_"

/-- The sample `Collect` sends for a catalogue entry when `MustNewConstMetric` returns. -/
def sample (stats : Stat) (pm : poolMetric) : Metric :=
  { desc := pm.desc, valType := pm.tp, value := pm.fn stats, labelValues := [] }

/-- The nine metric names of the source, without namespace and subsystem. -/
def suffixes : List GoString :=
  [bytes "acquire_count", bytes "acquire_duration", bytes "acquire_conns",
   bytes "canceled_acquire_count", bytes "constructing_conns", bytes "empty_acquire_count",
   bytes "idle_conns", bytes "max_conns", bytes "total_conns"]

/-- The snapshot of the end-to-end example: ten acquires that took two seconds. -/
def exampleStat : Stat :=
  { AcquireCount := 10, AcquireDuration := 2000000000, AcquiredConns := 1,
    CanceledAcquireCount := 0, ConstructingConns := 0, EmptyAcquireCount := 3,
    IdleConns := 4, MaxConns := 5, TotalConns := 5 }

/-- A later snapshot of the same pool: every cumulative field has grown, the idle
connections have dropped and one connection is under construction. -/
def laterStat : Stat :=
  { AcquireCount := 12, AcquireDuration := 3500000000, AcquiredConns := 0,
    CanceledAcquireCount := 1, ConstructingConns := 1, EmptyAcquireCount := 4,
    IdleConns := 2, MaxConns := 5, TotalConns := 3 }

/-- A snapshot whose reported total is not the sum of its parts. -/
def skewedStat : Stat :=
  { AcquireCount := 0, AcquireDuration := 0, AcquiredConns := 3,
    CanceledAcquireCount := 0, ConstructingConns := 2, EmptyAcquireCount := 0,
    IdleConns := 5, MaxConns := 20, TotalConns := 7 }

/-- A process whose pools all answer `exampleStat` to the first `Stat` call and
`laterStat` to every later one. -/
def exampleHeap : Heap :=
  fun _ => { snapshots := fun n => if n = 0 then exampleStat else laterStat, statCalls := 0 }

/-- A process whose pools always answer `skewedStat`. -/
def skewedHeap : Heap :=
  fun _ => { snapshots := fun _ => skewedStat, statCalls := 0 }

/-- A process whose pools always answer a snapshot with the given cumulative acquire
duration, in nanoseconds. -/
def durationHeap (d : ℤ) : Heap :=
  fun _ => { snapshots := fun _ => { exampleStat with AcquireDuration := d }, statCalls := 0 }

/-! ## Metric names -/

theorem Join_three (a b c sep : GoString) : Join [a, b, c] sep = a ++ sep ++ (b ++ sep ++ c) := rfl

theorem Join_two (a b sep : GoString) : Join [a, b] sep = a ++ sep ++ b := rfl

/-- With the subsystem `pgx` and a non-empty metric name, the fully qualified name is
the namespace part, `pgx_` and the name. -/
theorem BuildFQName_pgx (ns name : GoString) (hname : name ≠ []) :
    BuildFQName ns (bytes "pgx") name = nsPart ns ++ (bytes "pgx_" ++ name) := by
  have hpgx : bytes "pgx" ≠ [] := by decide
  have hsplit : bytes "pgx_" = bytes "pgx" ++ bytes "_" := by decide
  by_cases hns : ns = []
  · simp [BuildFQName, nsPart, hname, hns, hpgx, Join_two, hsplit]
  · simp [BuildFQName, nsPart, hname, hns, hpgx, Join_three, hsplit]

theorem isValidLegacyRune_mono {b i j : ℕ} (h : isValidLegacyRune b i = true) (hij : i ≤ j) :
    isValidLegacyRune b j = true := by
  simp only [isValidLegacyRune, Bool.or_eq_true, Bool.and_eq_true, decide_eq_true_eq,
    beq_iff_eq] at h ⊢
  omega

theorem legacyRunesFrom_mono {l : GoString} {i j : ℕ} (h : legacyRunesFrom i l = true)
    (hij : i ≤ j) : legacyRunesFrom j l = true := by
  induction l generalizing i j with
  | nil => rfl
  | cons b rest ih =>
    simp only [legacyRunesFrom, Bool.and_eq_true] at h ⊢
    exact ⟨isValidLegacyRune_mono h.1 hij, ih h.2 (by omega)⟩

theorem legacyRunesFrom_append (a b : GoString) (i : ℕ) :
    legacyRunesFrom i (a ++ b) = (legacyRunesFrom i a && legacyRunesFrom (i + a.length) b) := by
  induction a generalizing i with
  | nil => simp [legacyRunesFrom]
  | cons x rest ih =>
    have he : i + 1 + rest.length = i + (rest.length + 1) := by omega
    rw [List.cons_append, legacyRunesFrom, legacyRunesFrom, ih, List.length_cons,
      Bool.and_assoc, he]

theorem isValidLegacyRune_lt {b i : ℕ} (h : isValidLegacyRune b i = true) : b < 0x80 := by
  simp only [isValidLegacyRune, Bool.or_eq_true, Bool.and_eq_true, decide_eq_true_eq,
    beq_iff_eq] at h
  omega

theorem validFrom_zero (lo hi : ℕ) (s : GoString) :
    validFrom 0 lo hi s = validFrom 0 0 0 s := by
  cases s <;> simp [validFrom]

theorem validFrom_append (a b : GoString) (n lo hi : ℕ) (h : validFrom n lo hi a = true) :
    validFrom n lo hi (a ++ b) = validFrom 0 0 0 b := by
  induction a generalizing n lo hi with
  | nil =>
    cases n with
    | zero => exact validFrom_zero lo hi b
    | succ n => simp [validFrom] at h
  | cons x rest ih =>
    cases n with
    | zero =>
      simp only [List.cons_append, validFrom] at h ⊢
      split_ifs at h ⊢ <;> exact ih _ _ _ h
    | succ n =>
      simp only [List.cons_append, validFrom] at h ⊢
      split_ifs at h ⊢
      exact ih _ _ _ h

/-- Appending to a well-formed UTF-8 string does not change whether the whole is
well formed. -/
theorem ValidString_append (a b : GoString) (h : ValidString a = true) :
    ValidString (a ++ b) = ValidString b :=
  validFrom_append a b 0 0 0 h

theorem ValidString_of_legacy (a : GoString) (i : ℕ) (h : legacyRunesFrom i a = true) :
    ValidString a = true := by
  induction a generalizing i with
  | nil => rfl
  | cons x rest ih =>
    simp only [legacyRunesFrom, Bool.and_eq_true] at h
    have hx := isValidLegacyRune_lt h.1
    unfold ValidString
    rw [validFrom, if_pos hx]
    exact ih (i + 1) h.2

/-! ## Rounding to `float64` -/

theorem roundHalfEven_cases (t : ℚ) :
    roundHalfEven t = ⌊t⌋ ∨ roundHalfEven t = ⌊t⌋ + 1 := by
  unfold roundHalfEven
  simp only
  split_ifs <;> simp

theorem roundHalfEven_intCast (k : ℤ) : roundHalfEven (k : ℚ) = k := by
  simp [roundHalfEven]

theorem abs_roundHalfEven_sub_le (t : ℚ) : |(roundHalfEven t : ℚ) - t| ≤ 1 / 2 := by
  have h1 := Int.floor_le t
  have h2 := Int.lt_floor_add_one t
  unfold roundHalfEven
  simp only
  rw [abs_le]
  split_ifs with ha hb hc
  · constructor <;> linarith
  · push_cast; constructor <;> linarith
  · constructor <;> linarith
  · push_cast; constructor <;> linarith

theorem roundHalfEven_mono {s t : ℚ} (h : s ≤ t) : roundHalfEven s ≤ roundHalfEven t := by
  have hf : ⌊s⌋ ≤ ⌊t⌋ := Int.floor_le_floor h
  rcases lt_or_eq_of_le hf with hlt | heq
  · have hs : roundHalfEven s ≤ ⌊s⌋ + 1 := by
      rcases roundHalfEven_cases s with h1 | h1 <;> omega
    have ht : ⌊t⌋ ≤ roundHalfEven t := by
      rcases roundHalfEven_cases t with h1 | h1 <;> omega
    omega
  · unfold roundHalfEven
    simp only
    rw [heq]
    split_ifs <;> first | omega | (exfalso; linarith)

theorem ulp_pos (q : ℚ) : 0 < ulp q := by
  unfold ulp; positivity

theorem roundFloat64_of_ne {q : ℚ} (hq : q ≠ 0) :
    roundFloat64 q = roundHalfEven (q / ulp q) * ulp q := by
  simp [roundFloat64, hq]

theorem binade_le {q : ℚ} (hq : q ≠ 0) : (2 : ℚ) ^ (Int.log 2 |q|) ≤ |q| := by
  have := Int.zpow_log_le_self (b := 2) (r := |q|) (by norm_num) (abs_pos.mpr hq)
  simpa using this

theorem binade_lt (q : ℚ) : |q| < (2 : ℚ) ^ (Int.log 2 |q| + 1) := by
  have := Int.lt_zpow_succ_log_self (b := 2) (by norm_num) |q|
  simpa using this

theorem ulp_mul (q : ℚ) : ulp q * 2 ^ (52 : ℕ) = 2 ^ (Int.log 2 |q|) := by
  unfold ulp
  rw [zpow_sub₀ (by norm_num : (2 : ℚ) ≠ 0)]
  have : ((2 : ℚ) ^ (52 : ℤ)) = 2 ^ (52 : ℕ) := by norm_cast
  rw [this]
  field_simp

theorem scaled_ge {q : ℚ} (hq : q ≠ 0) : (2 : ℚ) ^ (52 : ℕ) ≤ |q| / ulp q := by
  rw [le_div_iff₀ (ulp_pos q), mul_comm, ulp_mul]
  exact binade_le hq

theorem scaled_lt (q : ℚ) : |q| / ulp q < (2 : ℚ) ^ (53 : ℕ) := by
  rw [div_lt_iff₀ (ulp_pos q)]
  have h := binade_lt q
  rw [zpow_add_one₀ (by norm_num : (2 : ℚ) ≠ 0), ← ulp_mul] at h
  calc |q| < ulp q * 2 ^ 52 * 2 := h
    _ = 2 ^ 53 * ulp q := by ring

/-- Rounding moves a value by at most half a unit in the last place, which is at most
`2⁻⁵³` of its magnitude. -/
theorem abs_roundFloat64_sub_le (q : ℚ) : |roundFloat64 q - q| ≤ |q| / 2 ^ 53 := by
  by_cases hq : q = 0
  · simp [roundFloat64, hq]
  rw [roundFloat64_of_ne hq]
  have hu := ulp_pos q
  have h1 := abs_roundHalfEven_sub_le (q / ulp q)
  have h2 : (roundHalfEven (q / ulp q) : ℚ) * ulp q - q
      = ((roundHalfEven (q / ulp q) : ℚ) - q / ulp q) * ulp q := by
    field_simp
  rw [h2, abs_mul, abs_of_pos hu]
  have h3 := scaled_ge hq
  rw [le_div_iff₀ hu] at h3
  calc |(roundHalfEven (q / ulp q) : ℚ) - q / ulp q| * ulp q
      ≤ 1 / 2 * ulp q := by gcongr
    _ = 2 ^ 52 * ulp q / 2 ^ 53 := by ring
    _ ≤ |q| / 2 ^ 53 := by gcongr

theorem roundFloat64_zero : roundFloat64 0 = 0 := by simp [roundFloat64]

theorem roundFloat64_pos_bounds {q : ℚ} (hq : 0 < q) :
    (2 : ℚ) ^ (Int.log 2 |q|) ≤ roundFloat64 q ∧
      roundFloat64 q ≤ (2 : ℚ) ^ (Int.log 2 |q| + 1) := by
  have hne : q ≠ 0 := ne_of_gt hq
  have hu := ulp_pos q
  have h1 := scaled_ge hne
  have h2 := scaled_lt q
  rw [abs_of_pos hq] at h1 h2
  have ha : (2 : ℤ) ^ 52 ≤ roundHalfEven (q / ulp q) := by
    have := roundHalfEven_mono (s := (((2 : ℤ) ^ 52 : ℤ) : ℚ)) (t := q / ulp q)
      (by push_cast; exact h1)
    rwa [roundHalfEven_intCast] at this
  have hb : roundHalfEven (q / ulp q) ≤ (2 : ℤ) ^ 53 := by
    have := roundHalfEven_mono (s := q / ulp q) (t := (((2 : ℤ) ^ 53 : ℤ) : ℚ))
      (by push_cast; exact le_of_lt h2)
    rwa [roundHalfEven_intCast] at this
  have ha' : ((2 : ℚ) ^ 52) ≤ (roundHalfEven (q / ulp q) : ℚ) := by exact_mod_cast ha
  have hb' : (roundHalfEven (q / ulp q) : ℚ) ≤ (2 : ℚ) ^ 53 := by exact_mod_cast hb
  rw [roundFloat64_of_ne hne, zpow_add_one₀ (by norm_num : (2 : ℚ) ≠ 0), ← ulp_mul]
  constructor
  · calc ulp q * 2 ^ 52 = 2 ^ 52 * ulp q := by ring
      _ ≤ roundHalfEven (q / ulp q) * ulp q := by gcongr
  · calc (roundHalfEven (q / ulp q) : ℚ) * ulp q ≤ 2 ^ 53 * ulp q := by gcongr
      _ = ulp q * 2 ^ 52 * 2 := by ring

theorem roundFloat64_neg_bounds {q : ℚ} (hq : q < 0) :
    -(2 : ℚ) ^ (Int.log 2 |q| + 1) ≤ roundFloat64 q ∧
      roundFloat64 q ≤ -(2 : ℚ) ^ (Int.log 2 |q|) := by
  have hne : q ≠ 0 := ne_of_lt hq
  have hu := ulp_pos q
  have h1 := scaled_ge hne
  have h2 := scaled_lt q
  rw [abs_of_neg hq, neg_div] at h1 h2
  have ha : -(2 : ℤ) ^ 53 ≤ roundHalfEven (q / ulp q) := by
    have := roundHalfEven_mono (s := ((-(2 : ℤ) ^ 53 : ℤ) : ℚ)) (t := q / ulp q)
      (by push_cast; linarith)
    rwa [roundHalfEven_intCast] at this
  have hb : roundHalfEven (q / ulp q) ≤ -(2 : ℤ) ^ 52 := by
    have := roundHalfEven_mono (s := q / ulp q) (t := ((-(2 : ℤ) ^ 52 : ℤ) : ℚ))
      (by push_cast; linarith)
    rwa [roundHalfEven_intCast] at this
  have ha' : -((2 : ℚ) ^ 53) ≤ (roundHalfEven (q / ulp q) : ℚ) := by exact_mod_cast ha
  have hb' : (roundHalfEven (q / ulp q) : ℚ) ≤ -(2 : ℚ) ^ 52 := by exact_mod_cast hb
  rw [roundFloat64_of_ne hne, zpow_add_one₀ (by norm_num : (2 : ℚ) ≠ 0), ← ulp_mul]
  constructor
  · calc -(ulp q * 2 ^ 52 * 2) = -(2 ^ 53) * ulp q := by ring
      _ ≤ roundHalfEven (q / ulp q) * ulp q := by gcongr
  · calc (roundHalfEven (q / ulp q) : ℚ) * ulp q ≤ -(2 ^ 52) * ulp q := by gcongr
      _ = -(ulp q * 2 ^ 52) := by ring

theorem roundFloat64_nonneg {q : ℚ} (hq : 0 ≤ q) : 0 ≤ roundFloat64 q := by
  rcases eq_or_lt_of_le hq with h | h
  · rw [← h, roundFloat64_zero]
  · exact le_trans (by positivity) (roundFloat64_pos_bounds h).1

theorem roundFloat64_nonpos {q : ℚ} (hq : q ≤ 0) : roundFloat64 q ≤ 0 := by
  rcases eq_or_lt_of_le hq with h | h
  · rw [h, roundFloat64_zero]
  · have h2 := (roundFloat64_neg_bounds h).2
    have : (0 : ℚ) < 2 ^ (Int.log 2 |q|) := by positivity
    linarith

theorem roundFloat64_same_binade {x y : ℚ} (hx : x ≠ 0) (hy : y ≠ 0) (h : x ≤ y)
    (he : Int.log 2 |x| = Int.log 2 |y|) : roundFloat64 x ≤ roundFloat64 y := by
  have hu : ulp x = ulp y := by unfold ulp; rw [he]
  rw [roundFloat64_of_ne hx, roundFloat64_of_ne hy, hu]
  have hpos := ulp_pos y
  have : roundHalfEven (x / ulp y) ≤ roundHalfEven (y / ulp y) :=
    roundHalfEven_mono (by gcongr)
  have h2 : (roundHalfEven (x / ulp y) : ℚ) ≤ roundHalfEven (y / ulp y) := by exact_mod_cast this
  gcongr

/-- Rounding to nearest is monotone. -/
theorem roundFloat64_mono {x y : ℚ} (h : x ≤ y) : roundFloat64 x ≤ roundFloat64 y := by
  rcases lt_trichotomy x 0 with hx | hx | hx
  · rcases lt_or_le y 0 with hy | hy
    · have hle : Int.log 2 |y| ≤ Int.log 2 |x| :=
        Int.log_mono_right (abs_pos.mpr (ne_of_lt hy))
          (by rw [abs_of_neg hx, abs_of_neg hy]; linarith)
      rcases lt_or_eq_of_le hle with hlt | heq
      · have h1 := (roundFloat64_neg_bounds hx).2
        have h2 := (roundFloat64_neg_bounds hy).1
        have h3 : (2 : ℚ) ^ (Int.log 2 |y| + 1) ≤ 2 ^ (Int.log 2 |x|) :=
          zpow_le_zpow_right₀ (by norm_num) (by omega)
        linarith
      · exact roundFloat64_same_binade (ne_of_lt hx) (ne_of_lt hy) h heq.symm
    · exact le_trans (roundFloat64_nonpos (le_of_lt hx)) (roundFloat64_nonneg hy)
  · rw [hx, roundFloat64_zero]
    exact roundFloat64_nonneg (hx ▸ h)
  · have hy : 0 < y := lt_of_lt_of_le hx h
    have hle : Int.log 2 |x| ≤ Int.log 2 |y| :=
      Int.log_mono_right (abs_pos.mpr (ne_of_gt hx))
        (by rw [abs_of_pos hx, abs_of_pos hy]; exact h)
    rcases lt_or_eq_of_le hle with hlt | heq
    · have h1 := (roundFloat64_pos_bounds hx).2
      have h2 := (roundFloat64_pos_bounds hy).1
      have h3 : (2 : ℚ) ^ (Int.log 2 |x| + 1) ≤ 2 ^ (Int.log 2 |y|) :=
        zpow_le_zpow_right₀ (by norm_num) (by omega)
      linarith
    · exact roundFloat64_same_binade (ne_of_gt hx) (ne_of_gt hy) h heq

/-- A value with a significand of at most 53 bits is not changed by rounding. -/
theorem roundFloat64_exact (m j : ℤ) (hm : |m| < 2 ^ 53) :
    roundFloat64 ((m : ℚ) * 2 ^ j) = (m : ℚ) * 2 ^ j := by
  by_cases hm0 : m = 0
  · simp [hm0, roundFloat64_zero]
  have h2 : (0 : ℚ) < 2 ^ j := by positivity
  have hq : (m : ℚ) * 2 ^ j ≠ 0 := mul_ne_zero (by exact_mod_cast hm0) (ne_of_gt h2)
  rw [roundFloat64_of_ne hq]
  set q : ℚ := (m : ℚ) * 2 ^ j with hqdef
  have hlog : Int.log 2 |q| < 53 + j := by
    rw [← Int.lt_zpow_iff_log_lt (by norm_num) (abs_pos.mpr hq)]
    rw [hqdef, abs_mul, abs_of_pos h2, zpow_add₀ (by norm_num)]
    have : |(m : ℚ)| < 2 ^ (53 : ℤ) := by
      have h3 : ((|m| : ℤ) : ℚ) < ((2 ^ 53 : ℤ) : ℚ) := by exact_mod_cast hm
      rw [Int.cast_abs] at h3
      calc |(m : ℚ)| < ((2 ^ 53 : ℤ) : ℚ) := h3
        _ = 2 ^ (53 : ℤ) := by norm_num
    push_cast
    gcongr
  obtain ⟨k, hk⟩ : ∃ k : ℕ, j - (Int.log 2 |q| - 52) = k := ⟨(j - (Int.log 2 |q| - 52)).toNat, by omega⟩
  have hdiv : q / ulp q = ((m * 2 ^ k : ℤ) : ℚ) := by
    unfold ulp
    rw [hqdef, mul_div_assoc, ← zpow_sub₀ (by norm_num : (2 : ℚ) ≠ 0), ← hqdef, hk]
    push_cast
    rw [zpow_natCast]
  rw [hdiv, roundHalfEven_intCast, ← hdiv]
  field_simp [ne_of_gt (ulp_pos q)]

/-- An integer below `2 ^ 53` in magnitude converts to `float64` without change. -/
theorem float64_exact (n : ℤ) (h : |n| < 2 ^ 53) : float64 n = n := by
  have := roundFloat64_exact n 0 h
  simpa [float64] using this

theorem float64_int32 (n : ℤ) (h : isInt32 n) : float64 n = n := by
  apply float64_exact
  unfold isInt32 at h
  rw [abs_lt]
  constructor <;> omega

theorem float64_mono {m n : ℤ} (h : m ≤ n) : float64 m ≤ float64 n :=
  roundFloat64_mono (by exact_mod_cast h)

theorem roundFloat64_one : roundFloat64 1 = 1 := by
  have := roundFloat64_exact 1 0 (by norm_num)
  simpa using this

theorem roundFloat64_neg_one : roundFloat64 (-1) = -1 := by
  have := roundFloat64_exact (-1) 0 (by norm_num)
  simpa using this

/-! ## `Duration.Seconds` -/

theorem tdiv_tmod_nonneg (d : ℤ) (h : 0 ≤ d) :
    d = Int.tdiv d Second * 1000000000 + Int.tmod d Second ∧ 0 ≤ Int.tdiv d Second ∧
      0 ≤ Int.tmod d Second ∧ Int.tmod d Second < 1000000000 := by
  rw [Int.tdiv_eq_ediv h (by decide), Int.tmod_eq_emod h (by decide)]
  unfold Second
  omega

theorem tdiv_tmod_neg (d : ℤ) (h : d < 0) :
    d = Int.tdiv d Second * 1000000000 + Int.tmod d Second ∧ Int.tdiv d Second ≤ 0 ∧
      Int.tmod d Second ≤ 0 ∧ -1000000000 < Int.tmod d Second := by
  obtain ⟨m, rfl⟩ : ∃ m : ℤ, d = -m := ⟨-d, by omega⟩
  have hm : 0 ≤ m := by omega
  rw [Int.tmod_def, Int.neg_tdiv, Int.tdiv_eq_ediv hm (by decide)]
  unfold Second
  omega

/-- For an `int64` duration both conversions in `Seconds` are exact, so the result is
the whole seconds plus the rounded quotient of the remainder, rounded once more. -/
theorem Seconds_eq (d : ℤ) (h : isInt64 d) :
    Seconds d = roundFloat64 ((Int.tdiv d Second : ℚ) +
      roundFloat64 ((Int.tmod d Second : ℚ) / 1000000000)) := by
  unfold isInt64 at h
  have hs : float64 (Int.tdiv d Second) = Int.tdiv d Second := by
    apply float64_exact
    rw [abs_lt]
    rcases le_or_lt 0 d with hd | hd
    · have := tdiv_tmod_nonneg d hd
      constructor <;> omega
    · have := tdiv_tmod_neg d hd
      constructor <;> omega
  have hn : float64 (Int.tmod d Second) = Int.tmod d Second := by
    apply float64_exact
    rw [abs_lt]
    rcases le_or_lt 0 d with hd | hd
    · have := tdiv_tmod_nonneg d hd
      constructor <;> omega
    · have := tdiv_tmod_neg d hd
      constructor <;> omega
  simp only [Seconds, fadd, fdiv, hs, hn]

theorem subsecond_nonneg {n : ℤ} (h0 : 0 ≤ n) (h1 : n < 1000000000) :
    0 ≤ roundFloat64 ((n : ℚ) / 1000000000) ∧ roundFloat64 ((n : ℚ) / 1000000000) ≤ 1 := by
  have hn0 : (0 : ℚ) ≤ n := by exact_mod_cast h0
  have hn1 : (n : ℚ) < 1000000000 := by exact_mod_cast h1
  constructor
  · exact roundFloat64_nonneg (by positivity)
  · rw [← roundFloat64_one]
    apply roundFloat64_mono
    rw [div_le_one (by norm_num)]
    exact le_of_lt hn1

theorem subsecond_nonpos {n : ℤ} (h0 : n ≤ 0) (h1 : -1000000000 < n) :
    -1 ≤ roundFloat64 ((n : ℚ) / 1000000000) ∧ roundFloat64 ((n : ℚ) / 1000000000) ≤ 0 := by
  have hn0 : (n : ℚ) ≤ 0 := by exact_mod_cast h0
  have hn1 : (-1000000000 : ℚ) < n := by exact_mod_cast h1
  constructor
  · rw [← roundFloat64_neg_one]
    apply roundFloat64_mono
    rw [le_div_iff₀ (by norm_num)]
    linarith
  · exact roundFloat64_nonpos (div_nonpos_of_nonpos_of_nonneg hn0 (by norm_num))

theorem subsecond_mono {m n : ℤ} (h : m ≤ n) :
    roundFloat64 ((m : ℚ) / 1000000000) ≤ roundFloat64 ((n : ℚ) / 1000000000) := by
  apply roundFloat64_mono
  have : (m : ℚ) ≤ n := by exact_mod_cast h
  gcongr

/-- A longer `int64` duration never converts to fewer seconds. -/
theorem Seconds_mono {d₁ d₂ : ℤ} (h₁ : isInt64 d₁) (h₂ : isInt64 d₂) (h : d₁ ≤ d₂) :
    Seconds d₁ ≤ Seconds d₂ := by
  rw [Seconds_eq d₁ h₁, Seconds_eq d₂ h₂]
  apply roundFloat64_mono
  rcases le_or_lt 0 d₁ with hd₁ | hd₁
  · have hd₂ : 0 ≤ d₂ := le_trans hd₁ h
    obtain ⟨e₁, s₁, n₁, l₁⟩ := tdiv_tmod_nonneg d₁ hd₁
    obtain ⟨e₂, s₂, n₂, l₂⟩ := tdiv_tmod_nonneg d₂ hd₂
    have b₁ := subsecond_nonneg n₁ l₁
    have b₂ := subsecond_nonneg n₂ l₂
    rcases lt_or_ge (Int.tdiv d₁ Second) (Int.tdiv d₂ Second) with hlt | hge
    · have : (Int.tdiv d₁ Second : ℚ) + 1 ≤ Int.tdiv d₂ Second := by exact_mod_cast hlt
      linarith
    · have hs : Int.tdiv d₁ Second = Int.tdiv d₂ Second := by omega
      have hn : Int.tmod d₁ Second ≤ Int.tmod d₂ Second := by omega
      have := subsecond_mono hn
      rw [hs]
      linarith
  · rcases le_or_lt 0 d₂ with hd₂ | hd₂
    · obtain ⟨e₁, s₁, n₁, l₁⟩ := tdiv_tmod_neg d₁ hd₁
      obtain ⟨e₂, s₂, n₂, l₂⟩ := tdiv_tmod_nonneg d₂ hd₂
      have b₁ := subsecond_nonpos n₁ l₁
      have b₂ := subsecond_nonneg n₂ l₂
      have c₁ : (Int.tdiv d₁ Second : ℚ) ≤ 0 := by exact_mod_cast s₁
      have c₂ : (0 : ℚ) ≤ Int.tdiv d₂ Second := by exact_mod_cast s₂
      linarith
    · obtain ⟨e₁, s₁, n₁, l₁⟩ := tdiv_tmod_neg d₁ hd₁
      obtain ⟨e₂, s₂, n₂, l₂⟩ := tdiv_tmod_neg d₂ hd₂
      have b₁ := subsecond_nonpos n₁ l₁
      have b₂ := subsecond_nonpos n₂ l₂
      rcases lt_or_ge (Int.tdiv d₁ Second) (Int.tdiv d₂ Second) with hlt | hge
      · have : (Int.tdiv d₁ Second : ℚ) + 1 ≤ Int.tdiv d₂ Second := by exact_mod_cast hlt
        linarith
      · have hs : Int.tdiv d₁ Second = Int.tdiv d₂ Second := by omega
        have hn : Int.tmod d₁ Second ≤ Int.tmod d₂ Second := by omega
        have := subsecond_mono hn
        rw [hs]
        linarith

/-- The result of `Seconds` differs from the exact quotient by a relative error of at
most `2⁻⁵¹`. -/
theorem Seconds_error (d : ℤ) (h : isInt64 d) :
    |Seconds d - (d : ℚ) / 1000000000| ≤ |(d : ℚ) / 1000000000| / 2 ^ 51 := by
  rw [Seconds_eq d h]
  set sec : ℚ := (Int.tdiv d Second : ℚ) with hsec
  set f : ℚ := (Int.tmod d Second : ℚ) / 1000000000 with hf
  have hx : (d : ℚ) / 1000000000 = sec + f := by
    have e : (d : ℚ) = (Int.tdiv d Second : ℚ) * 1000000000 + (Int.tmod d Second : ℚ) := by
      rcases le_or_lt 0 d with hd | hd
      · exact_mod_cast (tdiv_tmod_nonneg d hd).1
      · exact_mod_cast (tdiv_tmod_neg d hd).1
    rw [e, hsec, hf]
    field_simp
  have hfx : |f| ≤ |sec + f| := by
    rcases le_or_lt 0 d with hd | hd
    · obtain ⟨-, s, n, -⟩ := tdiv_tmod_nonneg d hd
      have hs : (0 : ℚ) ≤ sec := by rw [hsec]; exact_mod_cast s
      have hn : (0 : ℚ) ≤ f := by
        rw [hf]
        have : (0 : ℚ) ≤ (Int.tmod d Second : ℚ) := by exact_mod_cast n
        positivity
      rw [abs_of_nonneg hn, abs_of_nonneg (by linarith)]
      linarith
    · obtain ⟨-, s, n, -⟩ := tdiv_tmod_neg d hd
      have hs : sec ≤ 0 := by rw [hsec]; exact_mod_cast s
      have hn : f ≤ 0 := by
        rw [hf]
        have : (Int.tmod d Second : ℚ) ≤ 0 := by exact_mod_cast n
        exact div_nonpos_of_nonpos_of_nonneg this (by norm_num)
      rw [abs_of_nonpos hn, abs_of_nonpos (by linarith)]
      linarith
  rw [hx]
  have e₁ := abs_roundFloat64_sub_le f
  have e₂ := abs_roundFloat64_sub_le (sec + roundFloat64 f)
  have t₁ : |sec + roundFloat64 f| ≤ |sec + f| + |roundFloat64 f - f| := by
    have : sec + roundFloat64 f = (sec + f) + (roundFloat64 f - f) := by ring
    rw [this]
    exact abs_add _ _
  have t₂ : |roundFloat64 (sec + roundFloat64 f) - (sec + f)|
      ≤ |roundFloat64 (sec + roundFloat64 f) - (sec + roundFloat64 f)|
        + |roundFloat64 f - f| := by
    have : roundFloat64 (sec + roundFloat64 f) - (sec + f)
        = (roundFloat64 (sec + roundFloat64 f) - (sec + roundFloat64 f))
          + (roundFloat64 f - f) := by ring
    rw [this]
    exact abs_add _ _
  have hx0 : 0 ≤ |sec + f| := abs_nonneg _
  have e₁' : |roundFloat64 f - f| ≤ |sec + f| / 2 ^ 53 := by
    refine le_trans e₁ ?_
    gcongr
  have e₂' : |roundFloat64 (sec + roundFloat64 f) - (sec + roundFloat64 f)|
      ≤ (|sec + f| + |sec + f| / 2 ^ 53) / 2 ^ 53 := by
    refine le_trans e₂ ?_
    gcongr
    linarith
  have fin : (|sec + f| + |sec + f| / 2 ^ 53) / 2 ^ 53 + |sec + f| / 2 ^ 53
      ≤ |sec + f| / 2 ^ 51 := by
    have : (|sec + f| + |sec + f| / 2 ^ 53) / 2 ^ 53 + |sec + f| / 2 ^ 53
        = |sec + f| * ((1 + 1 / 2 ^ 53) / 2 ^ 53 + 1 / 2 ^ 53) := by ring
    rw [this, div_eq_mul_one_div (|sec + f|) (2 ^ 51)]
    apply mul_le_mul_of_nonneg_left _ hx0
    norm_num
  linarith

/-- A duration of 1,500 milliseconds is exactly 1.5 seconds. -/
theorem Seconds_1500ms : Seconds 1500000000 = 3 / 2 := by
  have hs : Int.tdiv 1500000000 Second = 1 := by decide
  have hn : Int.tmod 1500000000 Second = 500000000 := by decide
  have h1 : float64 1 = 1 := by simpa using float64_exact 1 (by norm_num)
  have h2 : float64 500000000 = 500000000 := by
    simpa using float64_exact 500000000 (by norm_num)
  have h3 : roundFloat64 (1 / 2) = 1 / 2 := by
    have := roundFloat64_exact 1 (-1) (by norm_num)
    norm_num at this
    simpa using this
  have h4 : roundFloat64 (3 / 2) = 3 / 2 := by
    have := roundFloat64_exact 3 (-1) (by norm_num)
    norm_num at this
    simpa using this
  simp only [Seconds, hs, hn, fadd, fdiv, h1, h2]
  norm_num
  rw [h3]
  norm_num
  exact h4

/-- A whole number of seconds converts exactly. -/
theorem Seconds_whole (k : ℤ) (h : isInt64 (k * 1000000000)) :
    Seconds (k * 1000000000) = k := by
  rw [Seconds_eq _ h]
  have hs : Int.tdiv (k * 1000000000) Second = k := by
    unfold Second
    rcases le_or_lt 0 k with hk | hk
    · rw [Int.tdiv_eq_ediv (by omega) (by decide)]; omega
    · obtain ⟨m, rfl⟩ : ∃ m : ℤ, k = -m := ⟨-k, by omega⟩
      rw [Int.neg_mul, Int.neg_tdiv, Int.tdiv_eq_ediv (by omega) (by decide)]; omega
  have hn : Int.tmod (k * 1000000000) Second = 0 := by
    rw [Int.tmod_def, hs]; unfold Second; ring
  rw [hs, hn]
  simp only [Int.cast_zero, zero_div, roundFloat64_zero, add_zero]
  have := float64_exact k (by
    unfold isInt64 at h
    rw [abs_lt]; constructor <;> omega)
  simpa [float64] using this

/-- When the duration is a multiple of `5⁹` nanoseconds, that is when `d / 10⁹` is a
binary fraction, `Seconds` returns it exactly. -/
theorem Seconds_exact (d k : ℤ) (h : isInt64 d) (hk : d = k * 1953125) :
    Seconds d = (d : ℚ) / 1000000000 := by
  rw [Seconds_eq d h]
  unfold isInt64 at h
  have hspec : d = Int.tdiv d Second * 1000000000 + Int.tmod d Second ∧
      -1000000000 < Int.tmod d Second ∧ Int.tmod d Second < 1000000000 := by
    rcases le_or_lt 0 d with hd | hd
    · have := tdiv_tmod_nonneg d hd
      exact ⟨this.1, by omega, this.2.2.2⟩
    · have := tdiv_tmod_neg d hd
      exact ⟨this.1, this.2.2.2, by omega⟩
  obtain ⟨hsplit, hlo, hhi⟩ := hspec
  set sec := Int.tdiv d Second with hsec
  set nsec := Int.tmod d Second with hnsec
  have hj : nsec = (k - 512 * sec) * 1953125 := by omega
  have hjb : |k - 512 * sec| < 2 ^ 53 := by
    rw [abs_lt]; constructor <;> omega
  have hkb : |k| < 2 ^ 53 := by
    rw [abs_lt]; constructor <;> omega
  have e1 : (nsec : ℚ) / 1000000000 = ((k - 512 * sec : ℤ) : ℚ) * 2 ^ (-9 : ℤ) := by
    rw [hj]
    push_cast
    norm_num
    ring
  have e2 : (sec : ℚ) + ((k - 512 * sec : ℤ) : ℚ) * 2 ^ (-9 : ℤ) = (k : ℚ) * 2 ^ (-9 : ℤ) := by
    push_cast
    norm_num
    ring
  have e3 : (d : ℚ) / 1000000000 = (k : ℚ) * 2 ^ (-9 : ℤ) := by
    rw [hk]
    push_cast
    norm_num
    ring
  rw [e1, roundFloat64_exact _ _ hjb, e2, roundFloat64_exact _ _ hkb, e3]

/-! ## Descriptors and the collection loop -/

theorem NewDesc_of_valid (scheme : ValidationScheme) (n h : GoString)
    (hv : IsValidMetricName scheme n = true) :
    NewDesc scheme n h [] [] =
      { fqName := n, help := h, constLabels := [], variableLabels := [], err := none } := by
  simp [NewDesc, hv]

theorem NewDesc_of_invalid (scheme : ValidationScheme) (n h : GoString)
    (hv : IsValidMetricName scheme n = false) :
    NewDesc scheme n h [] [] =
      { fqName := n, help := h, constLabels := [], variableLabels := [],
        err := some (.invalidMetricName n) } := by
  simp [NewDesc, hv]

theorem NewDesc_fqName (scheme : ValidationScheme) (n h : GoString) :
    (NewDesc scheme n h [] []).fqName = n := by
  cases hv : IsValidMetricName scheme n
  · rw [NewDesc_of_invalid scheme n h hv]
  · rw [NewDesc_of_valid scheme n h hv]

/-- A name of the source is valid behind any valid namespace: it is made of letters and
`_` only. -/
theorem IsValidMetricName_pgx (scheme : ValidationScheme) (ns name : GoString)
    (hns : validNamespace scheme ns) (hname : name ≠ [])
    (hl : legacyRunesFrom 1 name = true) :
    IsValidMetricName scheme (BuildFQName ns (bytes "pgx") name) = true := by
  rw [BuildFQName_pgx ns name hname]
  have htail : ∀ i, legacyRunesFrom i (bytes "pgx_" ++ name) = true := by
    intro i
    rw [legacyRunesFrom_append, Bool.and_eq_true]
    exact ⟨legacyRunesFrom_mono (i := 0) (by decide) (Nat.zero_le _),
      legacyRunesFrom_mono hl (by simp [bytes])⟩
  have hne : nsPart ns ++ (bytes "pgx_" ++ name) ≠ [] := by
    simp [bytes]
  rcases hns with hempty | hvalid
  · subst hempty
    cases scheme
    · simp only [IsValidMetricName, IsValidLegacyMetricName, nsPart, if_true, List.nil_append,
        Bool.and_eq_true, decide_eq_true_eq]
      exact ⟨by simp [bytes], htail 0⟩
    · simp only [IsValidMetricName, nsPart, if_true, List.nil_append,
        Bool.and_eq_true, decide_eq_true_eq]
      exact ⟨by simp [bytes], ValidString_of_legacy _ 0 (htail 0)⟩
  · have hnn : ns ≠ [] := by
      intro h0
      subst h0
      cases scheme <;> simp [IsValidMetricName, IsValidLegacyMetricName] at hvalid
    have hunder : ∀ i, legacyRunesFrom i (bytes "_") = true := by
      intro i
      exact legacyRunesFrom_mono (i := 0) (by decide) (Nat.zero_le _)
    cases scheme
    · simp only [IsValidMetricName, IsValidLegacyMetricName, Bool.and_eq_true,
        decide_eq_true_eq] at hvalid ⊢
      refine ⟨hne, ?_⟩
      simp only [nsPart, if_neg hnn]
      rw [legacyRunesFrom_append, legacyRunesFrom_append, Bool.and_eq_true, Bool.and_eq_true]
      exact ⟨⟨hvalid.2, hunder _⟩, htail _⟩
    · simp only [IsValidMetricName, Bool.and_eq_true, decide_eq_true_eq] at hvalid ⊢
      refine ⟨hne, ?_⟩
      simp only [nsPart, if_neg hnn]
      rw [List.append_assoc, ValidString_append _ _ hvalid.2]
      exact ValidString_of_legacy _ 0 (by
        rw [legacyRunesFrom_append, Bool.and_eq_true]
        exact ⟨hunder _, htail _⟩)

/-- When every descriptor is free of errors and labels and every type is known, the loop
sends one sample per entry and does not panic. -/
theorem collectLoop_ok (stats : Stat) (pms : List poolMetric)
    (h : ∀ pm ∈ pms, pm.desc.err = none ∧ pm.desc.variableLabels = [] ∧
      (pm.tp = CounterValue ∨ pm.tp = GaugeValue ∨ pm.tp = UntypedValue)) :
    collectLoop stats pms = (pms.map (sample stats), none) := by
  induction pms with
  | nil => rfl
  | cons pm rest ih =>
    obtain ⟨he, hv, ht⟩ := h pm (List.mem_cons_self _ _)
    have hrest := ih (fun q hq => h q (List.mem_cons_of_mem _ hq))
    simp [collectLoop, MustNewConstMetric, NewConstMetric, he, hv, ht, validateLabelValues,
      hrest, sample]

/-- Whatever the loop sends is the samples of a leading part of the catalogue. -/
theorem collectLoop_take (stats : Stat) (pms : List poolMetric) :
    ∃ k, (collectLoop stats pms).1 = (pms.take k).map (sample stats) := by
  induction pms with
  | nil => exact ⟨0, rfl⟩
  | cons pm rest ih =>
    obtain ⟨k, hk⟩ := ih
    cases hm : MustNewConstMetric pm.desc pm.tp (pm.fn stats) [] with
    | error e => exact ⟨0, by simp [collectLoop, hm]⟩
    | ok m =>
      refine ⟨k + 1, ?_⟩
      have hmeq : m = sample stats pm := by
        simp only [MustNewConstMetric, NewConstMetric] at hm
        split at hm
        · simp at hm
        · split at hm
          · simp at hm
          · split_ifs at hm
            · simp only [Except.ok.injEq] at hm
              rw [← hm]; rfl
      simp [collectLoop, hm, hk, hmeq]

/-! ## The catalogue of `NewPgxCollector` -/

theorem suffixes_legacy : ∀ name ∈ suffixes, name ≠ [] ∧ legacyRunesFrom 1 name = true := by
  decide

/-- Behind a valid namespace `NewDesc` stores the name and no error. -/
theorem desc_ok (scheme : ValidationScheme) (ns name help : GoString)
    (hns : validNamespace scheme ns) (hname : name ∈ suffixes) :
    NewDesc scheme (BuildFQName ns (bytes "pgx") name) help [] [] =
      { fqName := nsPart ns ++ (bytes "pgx_" ++ name), help := help, constLabels := [],
        variableLabels := [], err := none } := by
  obtain ⟨h1, h2⟩ := suffixes_legacy name hname
  rw [NewDesc_of_valid scheme _ help (IsValidMetricName_pgx scheme ns name hns h1 h2),
    BuildFQName_pgx ns name h1]

/-- The names of the catalogue, whatever the namespace. -/
theorem catalogue_names (scheme : ValidationScheme) (ns : GoString) (pgConn : Option ℕ) :
    (NewPgxCollector scheme ns pgConn).pms.map (fun pm => pm.desc.fqName) =
      suffixes.map (fun name => nsPart ns ++ (bytes "pgx_" ++ name)) := by
  have hs : ∀ name ∈ suffixes, BuildFQName ns (bytes "pgx") name
      = nsPart ns ++ (bytes "pgx_" ++ name) :=
    fun name hname => BuildFQName_pgx ns name (suffixes_legacy name hname).1
  simp only [NewPgxCollector, List.map, NewDesc_fqName, suffixes]
  simp only [suffixes, List.forall_mem_cons] at hs
  obtain ⟨h1, h2, h3, h4, h5, h6, h7, h8, h9, -⟩ := hs
  rw [h1, h2, h3, h4, h5, h6, h7, h8, h9]

theorem catalogue_ok (scheme : ValidationScheme) (ns : GoString) (pgConn : Option ℕ)
    (hns : validNamespace scheme ns) :
    ∀ pm ∈ (NewPgxCollector scheme ns pgConn).pms,
      pm.desc.err = none ∧ pm.desc.variableLabels = [] ∧
        (pm.tp = CounterValue ∨ pm.tp = GaugeValue ∨ pm.tp = UntypedValue) := by
  intro pm hpm
  simp only [NewPgxCollector, List.mem_cons, List.mem_singleton, List.not_mem_nil,
    or_false] at hpm
  rcases hpm with h | h | h | h | h | h | h | h | h <;> subst h <;>
    simp [desc_ok, hns, suffixes]

/-- With a live pool and a valid namespace `Collect` sends the sample of every catalogue
entry, computed from the snapshot `Stat` returned, and returns. -/
theorem Collect_ok (scheme : ValidationScheme) (ns : GoString) (hns : validNamespace scheme ns)
    (heap : Heap) (a : ℕ) :
    (Collect (NewPgxCollector scheme ns (some a)) heap).emitted =
        (NewPgxCollector scheme ns (some a)).pms.map
          (sample ((heap a).snapshots (heap a).statCalls)) ∧
      (Collect (NewPgxCollector scheme ns (some a)) heap).panicked = none := by
  have hc : (NewPgxCollector scheme ns (some a)).conn = some a := rfl
  simp [Collect, hc, Pool.Stat, collectLoop_ok _ _ (catalogue_ok scheme ns (some a) hns)]

/-- The name, kind and value of the nine samples `Collect` sends behind a valid
namespace. -/
theorem Collect_views (scheme : ValidationScheme) (ns : GoString)
    (hns : validNamespace scheme ns) (heap : Heap) (a : ℕ) :
    (Collect (NewPgxCollector scheme ns (some a)) heap).emitted.map Metric.view =
      [(nsPart ns ++ bytes "pgx_acquire_count", CounterValue,
          float64 ((heap a).snapshots (heap a).statCalls).AcquireCount),
       (nsPart ns ++ bytes "pgx_acquire_duration", CounterValue,
          Seconds ((heap a).snapshots (heap a).statCalls).AcquireDuration),
       (nsPart ns ++ bytes "pgx_acquire_conns", GaugeValue,
          float64 ((heap a).snapshots (heap a).statCalls).AcquiredConns),
       (nsPart ns ++ bytes "pgx_canceled_acquire_count", CounterValue,
          float64 ((heap a).snapshots (heap a).statCalls).CanceledAcquireCount),
       (nsPart ns ++ bytes "pgx_constructing_conns", GaugeValue,
          float64 ((heap a).snapshots (heap a).statCalls).ConstructingConns),
       (nsPart ns ++ bytes "pgx_empty_acquire_count", CounterValue,
          float64 ((heap a).snapshots (heap a).statCalls).EmptyAcquireCount),
       (nsPart ns ++ bytes "pgx_idle_conns", GaugeValue,
          float64 ((heap a).snapshots (heap a).statCalls).IdleConns),
       (nsPart ns ++ bytes "pgx_max_conns", GaugeValue,
          float64 ((heap a).snapshots (heap a).statCalls).MaxConns),
       (nsPart ns ++ bytes "pgx_total_conns", GaugeValue,
          float64 ((heap a).snapshots (heap a).statCalls).TotalConns)] := by
  have e1 : bytes "pgx_" ++ bytes "acquire_count" = bytes "pgx_acquire_count" := by decide
  have e2 : bytes "pgx_" ++ bytes "acquire_duration" = bytes "pgx_acquire_duration" := by
    decide
  have e3 : bytes "pgx_" ++ bytes "acquire_conns" = bytes "pgx_acquire_conns" := by decide
  have e4 : bytes "pgx_" ++ bytes "canceled_acquire_count"
      = bytes "pgx_canceled_acquire_count" := by decide
  have e5 : bytes "pgx_" ++ bytes "constructing_conns" = bytes "pgx_constructing_conns" := by
    decide
  have e6 : bytes "pgx_" ++ bytes "empty_acquire_count" = bytes "pgx_empty_acquire_count" := by
    decide
  have e7 : bytes "pgx_" ++ bytes "idle_conns" = bytes "pgx_idle_conns" := by decide
  have e8 : bytes "pgx_" ++ bytes "max_conns" = bytes "pgx_max_conns" := by decide
  have e9 : bytes "pgx_" ++ bytes "total_conns" = bytes "pgx_total_conns" := by decide
  rw [(Collect_ok scheme ns hns heap a).1]
  simp only [NewPgxCollector, List.map, sample, Metric.view]
  rw [desc_ok scheme ns _ _ hns (by simp [suffixes]), desc_ok scheme ns _ _ hns (by simp [suffixes]),
    desc_ok scheme ns _ _ hns (by simp [suffixes]), desc_ok scheme ns _ _ hns (by simp [suffixes]),
    desc_ok scheme ns _ _ hns (by simp [suffixes]), desc_ok scheme ns _ _ hns (by simp [suffixes]),
    desc_ok scheme ns _ _ hns (by simp [suffixes]), desc_ok scheme ns _ _ hns (by simp [suffixes]),
    desc_ok scheme ns _ _ hns (by simp [suffixes])]
  simp only [e1, e2, e3, e4, e5, e6, e7, e8, e9]

/-- With a live pool and a name `NewDesc` rejects, `Collect` takes its snapshot and then
panics on the first entry: nothing is sent. -/
theorem Collect_invalid (scheme : ValidationScheme) (ns : GoString) (heap : Heap) (a : ℕ)
    (h : IsValidMetricName scheme (BuildFQName ns (bytes "pgx") (bytes "acquire_count"))
      = false) :
    (Collect (NewPgxCollector scheme ns (some a)) heap).emitted = [] ∧
      (Collect (NewPgxCollector scheme ns (some a)) heap).panicked =
        some (.invalidMetricName (BuildFQName ns (bytes "pgx") (bytes "acquire_count"))) := by
  simp [Collect, NewPgxCollector, collectLoop, MustNewConstMetric, NewConstMetric,
    NewDesc_of_invalid _ _ _ h]

/-- The pool behind a live pointer has served one more `Stat` call after `Collect`, and
nothing else in the heap has changed. -/
theorem Collect_heap (p : pgxStatsCollector) (heap : Heap) (a : ℕ) (hc : p.conn = some a) :
    ((Collect p heap).heap a).statCalls = (heap a).statCalls + 1 ∧
      ((Collect p heap).heap a).snapshots = (heap a).snapshots ∧
      ∀ b, b ≠ a → (Collect p heap).heap b = heap b := by
  simp only [Collect, hc, Pool.Stat, Function.update_same]
  exact ⟨trivial, trivial, fun b hb => Function.update_noteq hb _ _⟩

/-- An ill-formed UTF-8 string stays ill formed when an ASCII byte and more follow it. -/
theorem validFrom_append_false (a b : GoString) (x n lo hi : ℕ) (hx : x < 0x80)
    (hlo : n ≠ 0 → 0x80 ≤ lo) (h : validFrom n lo hi a = false) :
    validFrom n lo hi (a ++ x :: b) = false := by
  induction a generalizing n lo hi with
  | nil =>
    cases n with
    | zero => simp [validFrom] at h
    | succ n =>
      have := hlo (Nat.succ_ne_zero n)
      simp only [List.nil_append, validFrom]
      rw [if_neg (by omega)]
  | cons y rest ih =>
    cases n with
    | zero =>
      simp only [List.cons_append, validFrom] at h ⊢
      split_ifs at h ⊢ <;> first | exact ih _ _ _ (by intro _; omega) h | rfl
    | succ n =>
      simp only [List.cons_append, validFrom] at h ⊢
      split_ifs at h ⊢
      · exact ih _ _ _ (by intro _; omega) h
      · rfl

/-- Behind a namespace that is neither empty nor a valid metric name, the first name of
the catalogue is not valid. -/
theorem IsValidMetricName_pgx_false (scheme : ValidationScheme) (ns : GoString)
    (hns : ¬ validNamespace scheme ns) :
    IsValidMetricName scheme (BuildFQName ns (bytes "pgx") (bytes "acquire_count")) = false := by
  simp only [validNamespace, not_or, Bool.not_eq_true] at hns
  obtain ⟨hne, hinv⟩ := hns
  rw [BuildFQName_pgx ns _ (by decide), nsPart, if_neg hne]
  cases scheme
  · simp only [IsValidMetricName, IsValidLegacyMetricName, Bool.and_eq_false_iff,
      decide_eq_false_iff_not, not_not] at hinv ⊢
    right
    rcases hinv with h | h
    · exact absurd h hne
    · rw [legacyRunesFrom_append, legacyRunesFrom_append, h]
      rfl
  · simp only [IsValidMetricName, Bool.and_eq_false_iff, decide_eq_false_iff_not,
      not_not] at hinv ⊢
    right
    rcases hinv with h | h
    · exact absurd h hne
    · have hb : bytes "_" = [0x5F] := by decide
      rw [List.append_assoc, hb, List.singleton_append]
      exact validFrom_append_false ns _ 0x5F 0 0 0 (by norm_num) (by simp) h

/-! ## The claims -/

/-- C1, as amended: for every namespace that is empty or a valid metric name, `Collect`
on the collector built for a live pool returns without panic having sent exactly
nine samples, in the order of the source, each with its name (namespace part,
`pgx_`, suffix), its kind and the value read from the snapshot `Stat` returned.
For every other namespace `Collect` sends no sample. -/
theorem C1_collect_emits_nine (scheme : ValidationScheme) (ns : GoString) (heap : Heap)
    (a : ℕ) :
    (validNamespace scheme ns →
      (Collect (NewPgxCollector scheme ns (some a)) heap).panicked = none ∧
      (Collect (NewPgxCollector scheme ns (some a)) heap).emitted.map Metric.view =
        [(nsPart ns ++ bytes "pgx_acquire_count", CounterValue,
            float64 ((heap a).snapshots (heap a).statCalls).AcquireCount),
         (nsPart ns ++ bytes "pgx_acquire_duration", CounterValue,
            Seconds ((heap a).snapshots (heap a).statCalls).AcquireDuration),
         (nsPart ns ++ bytes "pgx_acquire_conns", GaugeValue,
            float64 ((heap a).snapshots (heap a).statCalls).AcquiredConns),
         (nsPart ns ++ bytes "pgx_canceled_acquire_count", CounterValue,
            float64 ((heap a).snapshots (heap a).statCalls).CanceledAcquireCount),
         (nsPart ns ++ bytes "pgx_constructing_conns", GaugeValue,
            float64 ((heap a).snapshots (heap a).statCalls).ConstructingConns),
         (nsPart ns ++ bytes "pgx_empty_acquire_count", CounterValue,
            float64 ((heap a).snapshots (heap a).statCalls).EmptyAcquireCount),
         (nsPart ns ++ bytes "pgx_idle_conns", GaugeValue,
            float64 ((heap a).snapshots (heap a).statCalls).IdleConns),
         (nsPart ns ++ bytes "pgx_max_conns", GaugeValue,
            float64 ((heap a).snapshots (heap a).statCalls).MaxConns),
         (nsPart ns ++ bytes "pgx_total_conns", GaugeValue,
            float64 ((heap a).snapshots (heap a).statCalls).TotalConns)]) ∧
    (¬ validNamespace scheme ns →
      (Collect (NewPgxCollector scheme ns (some a)) heap).emitted = []) :=
  ⟨fun hns => ⟨(Collect_ok scheme ns hns heap a).2, Collect_views scheme ns hns heap a⟩,
    fun hns =>
      (Collect_invalid scheme ns heap a (IsValidMetricName_pgx_false scheme ns hns)).1⟩

/-- C1, the end-to-end example: namespace `app` and the example snapshot give the nine
samples of the specification, `app_pgx_acquire_count = 10` to
`app_pgx_total_conns = 5`. -/
theorem C1_collect_emits_nine_witness :
    validNamespace .LegacyValidation (bytes "app") ∧
    (Collect (NewPgxCollector .LegacyValidation (bytes "app") (some 0)) exampleHeap).emitted.map
        Metric.view =
      [(bytes "app_pgx_acquire_count", CounterValue, 10),
       (bytes "app_pgx_acquire_duration", CounterValue, 2),
       (bytes "app_pgx_acquire_conns", GaugeValue, 1),
       (bytes "app_pgx_canceled_acquire_count", CounterValue, 0),
       (bytes "app_pgx_constructing_conns", GaugeValue, 0),
       (bytes "app_pgx_empty_acquire_count", CounterValue, 3),
       (bytes "app_pgx_idle_conns", GaugeValue, 4),
       (bytes "app_pgx_max_conns", GaugeValue, 5),
       (bytes "app_pgx_total_conns", GaugeValue, 5)] := by
  refine ⟨by decide, ?_⟩
  rw [((C1_collect_emits_nine .LegacyValidation (bytes "app") exampleHeap 0).1 (by decide)).2]
  have f10 : float64 10 = 10 := by simpa using float64_exact 10 (by norm_num)
  have f1 : float64 1 = 1 := by simpa using float64_exact 1 (by norm_num)
  have f0 : float64 0 = 0 := by simpa using float64_exact 0 (by norm_num)
  have f3 : float64 3 = 3 := by simpa using float64_exact 3 (by norm_num)
  have f4 : float64 4 = 4 := by simpa using float64_exact 4 (by norm_num)
  have f5 : float64 5 = 5 := by simpa using float64_exact 5 (by norm_num)
  have s2 : Seconds 2000000000 = 2 := by
    simpa using Seconds_whole 2 (by decide)
  have n1 : nsPart (bytes "app") ++ bytes "pgx_acquire_count"
      = bytes "app_pgx_acquire_count" := by decide
  have n2 : nsPart (bytes "app") ++ bytes "pgx_acquire_duration"
      = bytes "app_pgx_acquire_duration" := by decide
  have n3 : nsPart (bytes "app") ++ bytes "pgx_acquire_conns"
      = bytes "app_pgx_acquire_conns" := by decide
  have n4 : nsPart (bytes "app") ++ bytes "pgx_canceled_acquire_count"
      = bytes "app_pgx_canceled_acquire_count" := by decide
  have n5 : nsPart (bytes "app") ++ bytes "pgx_constructing_conns"
      = bytes "app_pgx_constructing_conns" := by decide
  have n6 : nsPart (bytes "app") ++ bytes "pgx_empty_acquire_count"
      = bytes "app_pgx_empty_acquire_count" := by decide
  have n7 : nsPart (bytes "app") ++ bytes "pgx_idle_conns"
      = bytes "app_pgx_idle_conns" := by decide
  have n8 : nsPart (bytes "app") ++ bytes "pgx_max_conns"
      = bytes "app_pgx_max_conns" := by decide
  have n9 : nsPart (bytes "app") ++ bytes "pgx_total_conns"
      = bytes "app_pgx_total_conns" := by decide
  simp only [exampleHeap, exampleStat, if_true, f10, f1, f0, f3, f4, f5, s2,
    n1, n2, n3, n4, n5, n6, n7, n8, n9]

/-- C1 fails as stated: with the namespace `my-app`, whose `-` no metric name may
contain, `Collect` sends no sample at all; the same holds under either validation
scheme for the one-byte namespace 0xFF, which is not UTF-8. -/
theorem C1_counterexample :
    (Collect (NewPgxCollector .LegacyValidation (bytes "my-app") (some 0)) exampleHeap).emitted
        = [] ∧
      ∀ scheme, (Collect (NewPgxCollector scheme [0xFF] (some 0)) exampleHeap).emitted = [] := by
  refine ⟨(Collect_invalid _ _ _ _ (by decide)).1, fun scheme => ?_⟩
  cases scheme
  · exact (Collect_invalid _ _ _ _ (by decide)).1
  · exact (Collect_invalid _ _ _ _ (by decide)).1

theorem HasPrefix_append (p x : GoString) : HasPrefix (p ++ x) p = true := by
  unfold HasPrefix
  rw [List.isPrefixOf_iff_prefix]
  exact List.prefix_append p x

/-- Every name of the catalogue is the namespace part, `pgx_` and one of the nine
suffixes. -/
theorem catalogue_name_of_mem (scheme : ValidationScheme) (ns : GoString) (pgConn : Option ℕ)
    (pm : poolMetric) (hpm : pm ∈ (NewPgxCollector scheme ns pgConn).pms) :
    ∃ name ∈ suffixes, pm.desc.fqName = nsPart ns ++ (bytes "pgx_" ++ name) := by
  have hmem : pm.desc.fqName ∈
      (NewPgxCollector scheme ns pgConn).pms.map (fun pm => pm.desc.fqName) :=
    List.mem_map_of_mem _ hpm
  rw [catalogue_names, List.mem_map] at hmem
  obtain ⟨name, hname, heq⟩ := hmem
  exact ⟨name, hname, heq.symm⟩

/-- C2: the catalogue has nine entries; for a non-empty namespace `ns` every name
starts with `ns` followed by `_pgx_`; for the empty namespace every name starts
with `pgx_`, and so not with `_`. -/
theorem C2_names_carry_namespace (scheme : ValidationScheme) (ns : GoString)
    (pgConn : Option ℕ) :
    (NewPgxCollector scheme ns pgConn).pms.length = 9 ∧
    (ns ≠ [] → ∀ pm ∈ (NewPgxCollector scheme ns pgConn).pms,
      HasPrefix pm.desc.fqName (ns ++ bytes "_pgx_") = true) ∧
    (ns = [] → ∀ pm ∈ (NewPgxCollector scheme ns pgConn).pms,
      HasPrefix pm.desc.fqName (bytes "pgx_") = true ∧
        HasPrefix pm.desc.fqName (bytes "_") = false) := by
  refine ⟨rfl, ?_, ?_⟩
  · intro hns pm hpm
    obtain ⟨name, -, heq⟩ := catalogue_name_of_mem scheme ns pgConn pm hpm
    have hsplit : bytes "_pgx_" = bytes "_" ++ bytes "pgx_" := by decide
    have : pm.desc.fqName = (ns ++ bytes "_pgx_") ++ name := by
      rw [heq, nsPart, if_neg hns, hsplit]
      simp only [List.append_assoc]
    rw [this]
    exact HasPrefix_append _ _
  · intro hns pm hpm
    obtain ⟨name, -, heq⟩ := catalogue_name_of_mem scheme ns pgConn pm hpm
    have : pm.desc.fqName = bytes "pgx_" ++ name := by
      rw [heq, nsPart, if_pos hns, List.nil_append]
    rw [this]
    refine ⟨HasPrefix_append _ _, ?_⟩
    simp [HasPrefix, bytes, List.isPrefixOf]

/-- C2 at the namespaces `app` and the empty one. -/
theorem C2_names_carry_namespace_witness :
    bytes "app" ≠ [] ∧
    (∀ pm ∈ (NewPgxCollector .LegacyValidation (bytes "app") (some 0)).pms,
      HasPrefix pm.desc.fqName (bytes "app" ++ bytes "_pgx_") = true) ∧
    (∀ pm ∈ (NewPgxCollector .LegacyValidation [] (some 0)).pms,
      HasPrefix pm.desc.fqName (bytes "pgx_") = true ∧
        HasPrefix pm.desc.fqName (bytes "_") = false) :=
  ⟨by decide,
    (C2_names_carry_namespace .LegacyValidation (bytes "app") (some 0)).2.1 (by decide),
    (C2_names_carry_namespace .LegacyValidation [] (some 0)).2.2 rfl⟩

theorem suffixes_nodup : suffixes.Nodup := by decide

theorem catalogue_names_nodup (scheme : ValidationScheme) (ns : GoString)
    (pgConn : Option ℕ) :
    ((NewPgxCollector scheme ns pgConn).pms.map (fun pm => pm.desc.fqName)).Nodup := by
  rw [catalogue_names]
  refine List.Nodup.map ?_ suffixes_nodup
  intro x y hxy
  exact List.append_cancel_left (List.append_cancel_left hxy)

/-- C8: for every namespace, empty or not, valid or not, the nine fully qualified names
of the catalogue are pairwise distinct. -/
theorem C8_names_pairwise_distinct (scheme : ValidationScheme) (ns : GoString)
    (pgConn : Option ℕ) :
    ((NewPgxCollector scheme ns pgConn).pms.map (fun pm => pm.desc.fqName)).length = 9 ∧
    ((NewPgxCollector scheme ns pgConn).pms.map (fun pm => pm.desc.fqName)).Pairwise
      (fun x y => x ≠ y) :=
  ⟨rfl, catalogue_names_nodup scheme ns pgConn⟩

theorem Describe_nodup (scheme : ValidationScheme) (ns : GoString) (pgConn : Option ℕ) :
    (Describe (NewPgxCollector scheme ns pgConn)).Nodup := by
  have h := catalogue_names_nodup scheme ns pgConn
  have e : (NewPgxCollector scheme ns pgConn).pms.map (fun pm => pm.desc.fqName)
      = (Describe (NewPgxCollector scheme ns pgConn)).map (fun d => d.fqName) := by
    simp [Describe, List.map_map, Function.comp_def]
  rw [e] at h
  exact List.Nodup.of_map _ h

theorem Collect_descs (scheme : ValidationScheme) (ns : GoString)
    (hns : validNamespace scheme ns) (heap : Heap) (a : ℕ) :
    (Collect (NewPgxCollector scheme ns (some a)) heap).emitted.map (fun m => m.desc) =
      Describe (NewPgxCollector scheme ns (some a)) := by
  rw [(Collect_ok scheme ns hns heap a).1, List.map_map]
  rfl

/-- C3, as amended: for every collector built by `NewPgxCollector`, whatever the
namespace and the pool pointer, `Describe` sends the descriptor of each of the
nine catalogue entries exactly once, in catalogue order. When the namespace is
empty or a valid metric name and the pool is live, the descriptors of the samples
`Collect` sends are the same sequence, again when `Collect` is called a second
time on the state the first call left. -/
theorem C3_describe_matches_collect (scheme : ValidationScheme) (ns : GoString)
    (pgConn : Option ℕ) :
    Describe (NewPgxCollector scheme ns pgConn) =
      (NewPgxCollector scheme ns pgConn).pms.map (fun pm => pm.desc) ∧
    (Describe (NewPgxCollector scheme ns pgConn)).length = 9 ∧
    (Describe (NewPgxCollector scheme ns pgConn)).Nodup ∧
    (validNamespace scheme ns → ∀ (heap : Heap) (a : ℕ),
      (Collect (NewPgxCollector scheme ns (some a)) heap).emitted.map (fun m => m.desc) =
        Describe (NewPgxCollector scheme ns (some a)) ∧
      (Collect (NewPgxCollector scheme ns (some a))
          (Collect (NewPgxCollector scheme ns (some a)) heap).heap).emitted.map
            (fun m => m.desc) =
        Describe (NewPgxCollector scheme ns (some a))) :=
  ⟨rfl, rfl, Describe_nodup scheme ns pgConn,
    fun hns heap a => ⟨Collect_descs scheme ns hns heap a, Collect_descs scheme ns hns _ a⟩⟩

/-- C3 at the namespace `app`: both enumerations are the same nine descriptors; and at
the namespace `my-app` with a nil pool `Describe` still sends nine distinct ones. -/
theorem C3_describe_matches_collect_witness :
    validNamespace .LegacyValidation (bytes "app") ∧
    (Collect (NewPgxCollector .LegacyValidation (bytes "app") (some 0)) exampleHeap).emitted.map
        (fun m => m.desc) =
      Describe (NewPgxCollector .LegacyValidation (bytes "app") (some 0)) ∧
    (Describe (NewPgxCollector .LegacyValidation (bytes "app") (some 0))).length = 9 ∧
    (Describe (NewPgxCollector .LegacyValidation (bytes "my-app") none)).length = 9 ∧
    (Describe (NewPgxCollector .LegacyValidation (bytes "my-app") none)).Nodup :=
  ⟨by decide,
    ((C3_describe_matches_collect .LegacyValidation (bytes "app") (some 0)).2.2.2 (by decide)
      exampleHeap 0).1,
    (C3_describe_matches_collect .LegacyValidation (bytes "app") (some 0)).2.1,
    (C3_describe_matches_collect .LegacyValidation (bytes "my-app") none).2.1,
    (C3_describe_matches_collect .LegacyValidation (bytes "my-app") none).2.2.1⟩

/-- C3 fails as stated: for the namespace `my-app` `Describe` sends nine descriptors and
`Collect` sends no sample, so the two sequences of identities differ. -/
theorem C3_counterexample :
    (Describe (NewPgxCollector .LegacyValidation (bytes "my-app") (some 0))).length = 9 ∧
    (Collect (NewPgxCollector .LegacyValidation (bytes "my-app") (some 0))
        exampleHeap).emitted.map (fun m => m.desc) ≠
      Describe (NewPgxCollector .LegacyValidation (bytes "my-app") (some 0)) := by
  refine ⟨rfl, ?_⟩
  rw [(Collect_invalid _ _ _ _ (by decide)).1]
  intro h
  have := congrArg List.length h
  simp [Describe, NewPgxCollector] at this

theorem Collect_values_take (p : pgxStatsCollector) (heap : Heap) (a : ℕ)
    (hc : p.conn = some a) :
    ∃ k, (Collect p heap).emitted.map (fun m => m.value) =
      (p.pms.take k).map (fun pm => pm.fn ((heap a).snapshots (heap a).statCalls)) := by
  obtain ⟨k, hk⟩ := collectLoop_take ((heap a).snapshots (heap a).statCalls) p.pms
  refine ⟨k, ?_⟩
  simp only [Collect, hc, Pool.Stat, hk, List.map_map]
  rfl

theorem Collect_values (scheme : ValidationScheme) (ns : GoString)
    (hns : validNamespace scheme ns) (heap : Heap) (a : ℕ) :
    (Collect (NewPgxCollector scheme ns (some a)) heap).emitted.map (fun m => m.value) =
      (NewPgxCollector scheme ns (some a)).pms.map
        (fun pm => pm.fn ((heap a).snapshots (heap a).statCalls)) := by
  rw [(Collect_ok scheme ns hns heap a).1, List.map_map]
  rfl

/-- C4, as amended: one call of `Collect` on a collector with a live pool makes exactly
one `Stat` call (the pool's counter advances by one, no other pool changes), and
every value it sends is the extractor of its catalogue entry applied to the
snapshot that call returned; when the namespace is empty or a valid metric name
these are the values of all nine extractors. -/
theorem C4_single_snapshot (scheme : ValidationScheme) (ns : GoString) (heap : Heap) (a : ℕ) :
    ((Collect (NewPgxCollector scheme ns (some a)) heap).heap a).statCalls
      = (heap a).statCalls + 1 ∧
    ((Collect (NewPgxCollector scheme ns (some a)) heap).heap a).snapshots
      = (heap a).snapshots ∧
    (∀ b, b ≠ a → (Collect (NewPgxCollector scheme ns (some a)) heap).heap b = heap b) ∧
    (∃ k, (Collect (NewPgxCollector scheme ns (some a)) heap).emitted.map (fun m => m.value) =
      ((NewPgxCollector scheme ns (some a)).pms.take k).map
        (fun pm => pm.fn ((heap a).snapshots (heap a).statCalls))) ∧
    (validNamespace scheme ns →
      (Collect (NewPgxCollector scheme ns (some a)) heap).emitted.map (fun m => m.value) =
        (NewPgxCollector scheme ns (some a)).pms.map
          (fun pm => pm.fn ((heap a).snapshots (heap a).statCalls)) ∧
      ((NewPgxCollector scheme ns (some a)).pms.map
          (fun pm => pm.fn ((heap a).snapshots (heap a).statCalls))).length = 9) :=
  ⟨(Collect_heap _ heap a rfl).1, (Collect_heap _ heap a rfl).2.1,
    (Collect_heap _ heap a rfl).2.2, Collect_values_take _ heap a rfl,
    fun hns => ⟨Collect_values scheme ns hns heap a, rfl⟩⟩

/-- C4 on a pool that answers `exampleStat` first and `laterStat` afterwards: the first
`Collect` sends the nine values of `exampleStat` and leaves the counter at one;
the second sends the nine values of `laterStat`. -/
theorem C4_single_snapshot_witness :
    validNamespace .LegacyValidation (bytes "app") ∧
    ((Collect (NewPgxCollector .LegacyValidation (bytes "app") (some 0)) exampleHeap).heap
      0).statCalls = 1 ∧
    (Collect (NewPgxCollector .LegacyValidation (bytes "app") (some 0)) exampleHeap).emitted.map
        (fun m => m.value) =
      (NewPgxCollector .LegacyValidation (bytes "app") (some 0)).pms.map
        (fun pm => pm.fn exampleStat) ∧
    (Collect (NewPgxCollector .LegacyValidation (bytes "app") (some 0))
        (Collect (NewPgxCollector .LegacyValidation (bytes "app") (some 0))
          exampleHeap).heap).emitted.map (fun m => m.value) =
      (NewPgxCollector .LegacyValidation (bytes "app") (some 0)).pms.map
        (fun pm => pm.fn laterStat) := by
  have h1 := C4_single_snapshot .LegacyValidation (bytes "app") exampleHeap 0
  have h2 := C4_single_snapshot .LegacyValidation (bytes "app")
    (Collect (NewPgxCollector .LegacyValidation (bytes "app") (some 0)) exampleHeap).heap 0
  refine ⟨by decide, h1.1, (h1.2.2.2.2 (by decide)).1, ?_⟩
  have hv := (h2.2.2.2.2 (by decide)).1
  rw [h1.1, h1.2.1] at hv
  exact hv

/-- C4 fails as stated: for the namespace `my-app` the one `Stat` call is made, yet the
values sent are not those of the nine extractors: none is sent. -/
theorem C4_counterexample :
    ((Collect (NewPgxCollector .LegacyValidation (bytes "my-app") (some 0)) exampleHeap).heap
      0).statCalls = 1 ∧
    (Collect (NewPgxCollector .LegacyValidation (bytes "my-app") (some 0))
        exampleHeap).emitted.map (fun m => m.value) ≠
      (NewPgxCollector .LegacyValidation (bytes "my-app") (some 0)).pms.map
        (fun pm => pm.fn exampleStat) := by
  refine ⟨(Collect_heap _ exampleHeap 0 rfl).1, ?_⟩
  rw [(Collect_invalid _ _ _ _ (by decide)).1]
  intro h
  have := congrArg List.length h
  simp [NewPgxCollector] at this

theorem Collect_view_at (scheme : ValidationScheme) (ns : GoString) (heap : Heap) (a : ℕ) (i : ℕ)
    (v : GoString × ValueType × ℚ)
    (h : ((Collect (NewPgxCollector scheme ns (some a)) heap).emitted.map Metric.view)[i]?
      = some v) :
    ∃ m, (Collect (NewPgxCollector scheme ns (some a)) heap).emitted[i]? = some m ∧
      m.desc.fqName = v.1 ∧ m.valType = v.2.1 ∧ m.value = v.2.2 := by
  rw [List.getElem?_map] at h
  cases hm : (Collect (NewPgxCollector scheme ns (some a)) heap).emitted[i]? with
  | none => rw [hm] at h; simp at h
  | some m =>
    rw [hm] at h
    simp only [Option.map_some', Option.some.injEq] at h
    refine ⟨m, rfl, ?_, ?_, ?_⟩ <;> rw [← h] <;> rfl

/-- C5: behind a valid namespace the second sample is `acquire_duration`, a counter,
and for an `int64` duration of `d` nanoseconds its value is `d / 10⁹` as a
`float64`: the whole seconds plus the remainder over `10⁹`, each step rounded to
nearest. It equals `d / 10⁹` exactly whenever that quotient is a binary fraction
(`d` a multiple of `5⁹`), differs from it by a relative error of at most `2⁻⁵¹`
otherwise, and is exactly `1.5` for 1,500 milliseconds. -/
theorem C5_acquire_duration_in_seconds (scheme : ValidationScheme) (ns : GoString)
    (hns : validNamespace scheme ns) (heap : Heap) (a : ℕ) (d : ℤ)
    (hd : ((heap a).snapshots (heap a).statCalls).AcquireDuration = d) (h64 : isInt64 d) :
    ∃ m, (Collect (NewPgxCollector scheme ns (some a)) heap).emitted[1]? = some m ∧
      m.desc.fqName = nsPart ns ++ bytes "pgx_acquire_duration" ∧
      m.valType = CounterValue ∧
      m.value = roundFloat64 ((Int.tdiv d 1000000000 : ℚ) +
        roundFloat64 ((Int.tmod d 1000000000 : ℚ) / 1000000000)) ∧
      |m.value - (d : ℚ) / 1000000000| ≤ |(d : ℚ) / 1000000000| / 2 ^ 51 ∧
      (∀ k : ℤ, d = k * 1953125 → m.value = (d : ℚ) / 1000000000) ∧
      (d = 1500000000 → m.value = 3 / 2) := by
  obtain ⟨m, hm, hname, hkind, hval⟩ := Collect_view_at scheme ns heap a 1
    (nsPart ns ++ bytes "pgx_acquire_duration", CounterValue,
      Seconds ((heap a).snapshots (heap a).statCalls).AcquireDuration)
    (by rw [Collect_views scheme ns hns heap a]; rfl)
  simp only [hd] at hval
  refine ⟨m, hm, hname, hkind, ?_, ?_, ?_, ?_⟩
  · rw [hval, Seconds_eq d h64]; rfl
  · rw [hval]; exact Seconds_error d h64
  · intro k hk
    rw [hval]
    exact Seconds_exact d k h64 hk
  · intro h15
    rw [hval, h15]
    exact Seconds_1500ms

/-- C5 at a snapshot reporting 1,500 milliseconds: the sample `app_pgx_acquire_duration`
has the value `1.5`. -/
theorem C5_acquire_duration_in_seconds_witness :
    validNamespace .LegacyValidation (bytes "app") ∧ isInt64 1500000000 ∧
    ∃ m, (Collect (NewPgxCollector .LegacyValidation (bytes "app") (some 0))
        (durationHeap 1500000000)).emitted[1]? = some m ∧
      m.desc.fqName = bytes "app_pgx_acquire_duration" ∧ m.value = 3 / 2 := by
  refine ⟨by decide, by decide, ?_⟩
  obtain ⟨m, hm, hname, -, -, -, -, h15⟩ :=
    C5_acquire_duration_in_seconds .LegacyValidation (bytes "app") (by decide)
      (durationHeap 1500000000) 0 1500000000 rfl (by decide)
  exact ⟨m, hm, by rw [hname]; decide, h15 rfl⟩

/-- C6: behind a valid namespace the ninth sample is `total_conns`, a gauge, and its
value is the `int32` total the snapshot reports, whatever its constructing,
acquired and idle fields are. -/
theorem C6_total_conns_as_reported (scheme : ValidationScheme) (ns : GoString)
    (hns : validNamespace scheme ns) (heap : Heap) (a : ℕ)
    (ht : isInt32 ((heap a).snapshots (heap a).statCalls).TotalConns) :
    ∃ m, (Collect (NewPgxCollector scheme ns (some a)) heap).emitted[8]? = some m ∧
      m.desc.fqName = nsPart ns ++ bytes "pgx_total_conns" ∧
      m.valType = GaugeValue ∧
      m.value = (((heap a).snapshots (heap a).statCalls).TotalConns : ℚ) := by
  obtain ⟨m, hm, hname, hkind, hval⟩ := Collect_view_at scheme ns heap a 8
    (nsPart ns ++ bytes "pgx_total_conns", GaugeValue,
      float64 ((heap a).snapshots (heap a).statCalls).TotalConns)
    (by rw [Collect_views scheme ns hns heap a]; rfl)
  exact ⟨m, hm, hname, hkind, by rw [hval]; exact float64_int32 _ ht⟩

/-- C6 at a snapshot with two constructing, three acquired and five idle connections that
reports a total of seven: the sample carries seven, not ten. -/
theorem C6_total_conns_as_reported_witness :
    validNamespace .LegacyValidation (bytes "app") ∧
    skewedStat.ConstructingConns + skewedStat.AcquiredConns + skewedStat.IdleConns = 10 ∧
    ∃ m, (Collect (NewPgxCollector .LegacyValidation (bytes "app") (some 0))
        skewedHeap).emitted[8]? = some m ∧ m.value = 7 ∧ m.value ≠ 10 := by
  refine ⟨by decide, by decide, ?_⟩
  obtain ⟨m, hm, -, -, hval⟩ :=
    C6_total_conns_as_reported .LegacyValidation (bytes "app") (by decide) skewedHeap 0
      (by decide)
  have h7 : m.value = 7 := by
    rw [hval]
    simp [skewedHeap, skewedStat]
  exact ⟨m, hm, h7, by rw [h7]; norm_num⟩

/-- Between two snapshots whose cumulative fields have not shrunk, no counter extractor
of the catalogue yields a smaller value. -/
theorem catalogue_counters_mono (scheme : ValidationScheme) (ns : GoString)
    (pgConn : Option ℕ) (s₁ s₂ : Stat)
    (h₁ : isInt64 s₁.AcquireDuration) (h₂ : isInt64 s₂.AcquireDuration)
    (hcount : s₁.AcquireCount ≤ s₂.AcquireCount)
    (hdur : s₁.AcquireDuration ≤ s₂.AcquireDuration)
    (hcancel : s₁.CanceledAcquireCount ≤ s₂.CanceledAcquireCount)
    (hempty : s₁.EmptyAcquireCount ≤ s₂.EmptyAcquireCount) :
    ∀ pm ∈ (NewPgxCollector scheme ns pgConn).pms,
      pm.tp = CounterValue → pm.fn s₁ ≤ pm.fn s₂ := by
  intro pm hpm hkind
  simp only [NewPgxCollector, List.mem_cons, List.mem_singleton, List.not_mem_nil,
    or_false] at hpm
  rcases hpm with h | h | h | h | h | h | h | h | h <;> subst h
  · exact float64_mono hcount
  · exact Seconds_mono h₁ h₂ hdur
  · simp [GaugeValue, CounterValue] at hkind
  · exact float64_mono hcancel
  · simp [GaugeValue, CounterValue] at hkind
  · exact float64_mono hempty
  · simp [GaugeValue, CounterValue] at hkind
  · simp [GaugeValue, CounterValue] at hkind
  · simp [GaugeValue, CounterValue] at hkind

/-- C7: behind a valid namespace, two calls of `Collect` in sequence on a pool whose
cumulative fields (acquire count, acquire duration, canceled and empty acquire
counts) have not shrunk from the first snapshot to the second send the same nine
metrics, four counters and five gauges, and every counter has a value at least
that of the first call. The gauges are free: from `exampleStat` to `laterStat`
the cumulative fields grow while `idle_conns` falls and `constructing_conns`
rises. -/
theorem C7_counters_never_decrease (scheme : ValidationScheme) (ns : GoString)
    (hns : validNamespace scheme ns) (heap : Heap) (a : ℕ) (s₁ s₂ : Stat)
    (hs₁ : (heap a).snapshots (heap a).statCalls = s₁)
    (hs₂ : (heap a).snapshots ((heap a).statCalls + 1) = s₂)
    (h₁ : isInt64 s₁.AcquireDuration) (h₂ : isInt64 s₂.AcquireDuration)
    (hcount : s₁.AcquireCount ≤ s₂.AcquireCount)
    (hdur : s₁.AcquireDuration ≤ s₂.AcquireDuration)
    (hcancel : s₁.CanceledAcquireCount ≤ s₂.CanceledAcquireCount)
    (hempty : s₁.EmptyAcquireCount ≤ s₂.EmptyAcquireCount) :
    List.Forall₂
      (fun m₁ m₂ => m₁.desc = m₂.desc ∧ m₁.valType = m₂.valType ∧
        (m₁.valType = CounterValue → m₁.value ≤ m₂.value))
      (Collect (NewPgxCollector scheme ns (some a)) heap).emitted
      (Collect (NewPgxCollector scheme ns (some a))
        (Collect (NewPgxCollector scheme ns (some a)) heap).heap).emitted ∧
    (Collect (NewPgxCollector scheme ns (some a)) heap).emitted.map (fun m => m.valType) =
      [CounterValue, CounterValue, GaugeValue, CounterValue, GaugeValue, CounterValue,
        GaugeValue, GaugeValue, GaugeValue] ∧
    (exampleStat.AcquireCount ≤ laterStat.AcquireCount ∧
      exampleStat.AcquireDuration ≤ laterStat.AcquireDuration ∧
      exampleStat.CanceledAcquireCount ≤ laterStat.CanceledAcquireCount ∧
      exampleStat.EmptyAcquireCount ≤ laterStat.EmptyAcquireCount ∧
      float64 laterStat.IdleConns < float64 exampleStat.IdleConns ∧
      float64 exampleStat.ConstructingConns < float64 laterStat.ConstructingConns) := by
  refine ⟨?_, ?_, ?_⟩
  · have hheap := Collect_heap (NewPgxCollector scheme ns (some a)) heap a rfl
    have e₂ := (Collect_ok scheme ns hns
      (Collect (NewPgxCollector scheme ns (some a)) heap).heap a).1
    rw [hheap.1, hheap.2.1, hs₂] at e₂
    have e₁ := (Collect_ok scheme ns hns heap a).1
    rw [hs₁] at e₁
    rw [e₂, e₁, List.forall₂_map_left_iff, List.forall₂_map_right_iff, List.forall₂_same]
    intro pm hpm
    exact ⟨rfl, rfl, catalogue_counters_mono scheme ns (some a) s₁ s₂ h₁ h₂ hcount hdur
      hcancel hempty pm hpm⟩
  · rw [(Collect_ok scheme ns hns heap a).1, List.map_map]
    rfl
  · have f4 : float64 4 = 4 := by simpa using float64_exact 4 (by norm_num)
    have f2 : float64 2 = 2 := by simpa using float64_exact 2 (by norm_num)
    have f1 : float64 1 = 1 := by simpa using float64_exact 1 (by norm_num)
    have f0 : float64 0 = 0 := by simpa using float64_exact 0 (by norm_num)
    refine ⟨by decide, by decide, by decide, by decide, ?_, ?_⟩
    · simp only [exampleStat, laterStat, f4, f2]; norm_num
    · simp only [exampleStat, laterStat, f0, f1]; norm_num

/-- C7 on the pool that answers `exampleStat` and then `laterStat`. -/
theorem C7_counters_never_decrease_witness :
    validNamespace .LegacyValidation (bytes "app") ∧
    isInt64 exampleStat.AcquireDuration ∧ isInt64 laterStat.AcquireDuration ∧
    List.Forall₂
      (fun m₁ m₂ => m₁.desc = m₂.desc ∧ m₁.valType = m₂.valType ∧
        (m₁.valType = CounterValue → m₁.value ≤ m₂.value))
      (Collect (NewPgxCollector .LegacyValidation (bytes "app") (some 0)) exampleHeap).emitted
      (Collect (NewPgxCollector .LegacyValidation (bytes "app") (some 0))
        (Collect (NewPgxCollector .LegacyValidation (bytes "app") (some 0))
          exampleHeap).heap).emitted :=
  ⟨by decide, by decide, by decide,
    (C7_counters_never_decrease .LegacyValidation (bytes "app") (by decide) exampleHeap 0
      exampleStat laterStat rfl rfl (by decide) (by decide) (by decide) (by decide)
      (by decide) (by decide)).1⟩

/-- C9, as amended: construction has no failure mode. `NewPgxCollector` returns a
collector for every namespace and every pool pointer, nil included: it stores the
pointer as given and builds all nine entries. A nil pool shows only when
`Collect` is called, which then panics in `Stat` before sending anything. -/
theorem C9_construction_never_fails (scheme : ValidationScheme) (ns : GoString)
    (pgConn : Option ℕ) :
    (NewPgxCollector scheme ns pgConn).conn = pgConn ∧
    (NewPgxCollector scheme ns pgConn).pms.length = 9 ∧
    (Describe (NewPgxCollector scheme ns pgConn)).length = 9 ∧
    (pgConn = none → ∀ heap : Heap,
      (Collect (NewPgxCollector scheme ns pgConn) heap).emitted = [] ∧
      (Collect (NewPgxCollector scheme ns pgConn) heap).panicked
        = some .nilPointerDereference ∧
      (Collect (NewPgxCollector scheme ns pgConn) heap).heap = heap) := by
  refine ⟨rfl, rfl, rfl, ?_⟩
  intro hnil heap
  subst hnil
  exact ⟨rfl, rfl, rfl⟩

/-- C9 at the nil pool. -/
theorem C9_construction_never_fails_witness :
    (NewPgxCollector .LegacyValidation (bytes "app") none).pms.length = 9 ∧
    (Collect (NewPgxCollector .LegacyValidation (bytes "app") none) exampleHeap).panicked
      = some .nilPointerDereference :=
  ⟨(C9_construction_never_fails .LegacyValidation (bytes "app") none).2.1,
    ((C9_construction_never_fails .LegacyValidation (bytes "app") none).2.2.2 rfl
      exampleHeap).2.1⟩

/-- C9 fails as stated: called with a nil pool, `NewPgxCollector` does not fail; it
returns a collector that holds the nil pointer and nine descriptors, none of
which carries an error. -/
theorem C9_counterexample :
    (NewPgxCollector .LegacyValidation (bytes "app") none).conn = none ∧
    (Describe (NewPgxCollector .LegacyValidation (bytes "app") none)).map (fun d => d.err)
      = List.replicate 9 none := by
  refine ⟨rfl, ?_⟩
  simp only [Describe, NewPgxCollector, List.map]
  rw [desc_ok _ _ _ _ (by decide) (by simp [suffixes]),
    desc_ok _ _ _ _ (by decide) (by simp [suffixes]),
    desc_ok _ _ _ _ (by decide) (by simp [suffixes]),
    desc_ok _ _ _ _ (by decide) (by simp [suffixes]),
    desc_ok _ _ _ _ (by decide) (by simp [suffixes]),
    desc_ok _ _ _ _ (by decide) (by simp [suffixes]),
    desc_ok _ _ _ _ (by decide) (by simp [suffixes]),
    desc_ok _ _ _ _ (by decide) (by simp [suffixes]),
    desc_ok _ _ _ _ (by decide) (by simp [suffixes])]
  rfl

/-- C10, as amended: with a live pool, `Collect` returns having sent all nine samples
exactly when the namespace is empty or a valid metric name; for any other
namespace the first `MustNewConstMetric` panics with the descriptor's error and
nothing is sent. The extractors are total, the descriptors carry no labels and
every kind is counter or gauge, so no other panic can occur. -/
theorem C10_collect_completes (scheme : ValidationScheme) (ns : GoString) (heap : Heap)
    (a : ℕ) :
    (validNamespace scheme ns →
      (Collect (NewPgxCollector scheme ns (some a)) heap).panicked = none ∧
      (Collect (NewPgxCollector scheme ns (some a)) heap).emitted.length = 9) ∧
    (¬ validNamespace scheme ns →
      (Collect (NewPgxCollector scheme ns (some a)) heap).panicked =
        some (.invalidMetricName (BuildFQName ns (bytes "pgx") (bytes "acquire_count"))) ∧
      (Collect (NewPgxCollector scheme ns (some a)) heap).emitted = []) := by
  constructor
  · intro hns
    refine ⟨(Collect_ok scheme ns hns heap a).2, ?_⟩
    rw [(Collect_ok scheme ns hns heap a).1, List.length_map]
    rfl
  · intro hns
    have h := Collect_invalid scheme ns heap a (IsValidMetricName_pgx_false scheme ns hns)
    exact ⟨h.2, h.1⟩

/-- C10 at the namespaces `app` and the empty one. -/
theorem C10_collect_completes_witness :
    validNamespace .LegacyValidation (bytes "app") ∧
    validNamespace .UTF8Validation [] ∧
    (Collect (NewPgxCollector .LegacyValidation (bytes "app") (some 0)) exampleHeap).panicked
      = none ∧
    (Collect (NewPgxCollector .UTF8Validation [] (some 0)) exampleHeap).emitted.length = 9 :=
  ⟨by decide, by decide,
    ((C10_collect_completes .LegacyValidation (bytes "app") exampleHeap 0).1 (by decide)).1,
    ((C10_collect_completes .UTF8Validation [] exampleHeap 0).1 (by decide)).2⟩

/-- C10 fails as stated: with the namespace `my-app` the panic branch of
`MustNewConstMetric` is reached on the first entry, and with the one-byte
namespace 0xFF it is reached under either validation scheme. -/
theorem C10_counterexample :
    (Collect (NewPgxCollector .LegacyValidation (bytes "my-app") (some 0))
        exampleHeap).panicked =
      some (.invalidMetricName (bytes "my-app_pgx_acquire_count")) ∧
    ∀ scheme, (Collect (NewPgxCollector scheme [0xFF] (some 0)) exampleHeap).panicked =
      some (.invalidMetricName ([0xFF] ++ bytes "_pgx_acquire_count")) := by
  refine ⟨?_, fun scheme => ?_⟩
  · rw [(Collect_invalid _ _ _ _ (by decide)).2]
    decide
  · cases scheme
    · rw [(Collect_invalid _ _ _ _ (by decide)).2]
      decide
    · rw [(Collect_invalid _ _ _ _ (by decide)).2]
      decide

end PgxCollector
